import Mathlib

/-!
Verification of the stoic-texts parsers (parser_letters.py, parser_discourses.py,
parser_meditations.py, parser_shortness.py) against their natural-language
specification.

Strings are modelled as `List Char`; lines of the input file are `List Char`
values (the Python scripts obtain them from `str.splitlines()`, so a line never
contains a newline character).  Each Python function used by a claim is
translated into an executable Lean definition below; regular expressions are
translated into hand-written matchers that implement the backtracking semantics
of the concrete pattern on the concrete character classes involved.
Loops whose per-iteration progress is not structural are given an explicit fuel
argument that provably dominates the iteration count, so that every definition
reduces in the kernel.
-/

set_option linter.unusedVariables false

/-- Convert a string literal to the `List Char` representation used throughout. -/
def str (s : String) : List Char := s.data

/-- The whitespace characters recognised by Python's `str.strip` / `str.split`
and by the `\s` class of the `re` module (Unicode whitespace). -/
def pyWS (c : Char) : Bool :=
  c = ' ' || c = '\t' || c = '\n' || c = '\x0b' || c = '\x0c' || c = '\r' ||
  c = '\x1c' || c = '\x1d' || c = '\x1e' || c = '\x1f' || c = '\u0085' ||
  c = '\u00a0' || c = '\u1680' ||
  (0x2000 ≤ c.val.toNat && c.val.toNat ≤ 0x200a) ||
  c = '\u2028' || c = '\u2029' || c = '\u202f' || c = '\u205f' || c = '\u3000'

/-- Horizontal whitespace: the characters matched by `[^\S\n]`
(whitespace other than the newline). -/
def isHWS (c : Char) : Bool := pyWS c && c ≠ '\n'

/-- ASCII decimal digit, the `\d` class. -/
def isDigit (c : Char) : Bool := '0' ≤ c && c ≤ '9'

/-- ASCII uppercase letter, the `[A-Z]` class. -/
def isUpper (c : Char) : Bool := 'A' ≤ c && c ≤ 'Z'

/-- ASCII lowercase letter, the `[a-z]` class. -/
def isLower (c : Char) : Bool := 'a' ≤ c && c ≤ 'z'

/-- Numeric value of a maximal run of decimal digits (Python `int(...)`,
leading zeros allowed). -/
def digitsToNat (ds : List Char) : Nat :=
  ds.foldl (fun acc c => acc * 10 + (c.val.toNat - 48)) 0

/-- Drop trailing characters satisfying `p` (helper for `stripChars`). -/
def dropTrailing (p : Char → Bool) (l : List Char) : List Char :=
  (l.reverse.dropWhile p).reverse

/-- Python `str.strip()`: remove leading and trailing whitespace. -/
def stripChars (l : List Char) : List Char :=
  dropTrailing pyWS (l.dropWhile pyWS)

/-- Python `str.rstrip('.')`: remove trailing period characters. -/
def rstripDots (l : List Char) : List Char :=
  dropTrailing (fun c => c = '.') l

/-- Boolean prefix test on character lists. -/
def isPrefixOfChars : List Char → List Char → Bool
  | [], _ => true
  | _ :: _, [] => false
  | a :: as, b :: bs => a = b && isPrefixOfChars as bs

/-- Number of whitespace-delimited tokens: `len(s.split())` in Python.
The boolean argument records whether the scan is currently inside a token. -/
def countWordsAux : Bool → List Char → Nat
  | _, [] => 0
  | inWord, c :: rest =>
    if pyWS c then countWordsAux false rest
    else (if inWord then 0 else 1) + countWordsAux true rest

/-- `len(s.split())` in Python: the number of maximal non-whitespace runs. -/
def countWords (s : List Char) : Nat := countWordsAux false s

/-- Decimal digits of `n`, most significant first (fuelled: `n` itself
dominates the number of divisions by 10). -/
def natDecimalAux : Nat → Nat → List Char → List Char
  | 0, _, acc => acc
  | fuel + 1, n, acc =>
    let d := Char.ofNat (48 + n % 10)
    if n < 10 then d :: acc else natDecimalAux fuel (n / 10) (d :: acc)

/-- Decimal representation of a natural number as characters. -/
def natDecimal (n : Nat) : List Char := natDecimalAux (n + 1) n []

/-- Zero-pad a digit string on the left to width `w` (Python `f"{n:03d}"` etc.). -/
def padZeros (w : Nat) (s : List Char) : List Char :=
  List.replicate (w - s.length) '0' ++ s

/- ---------------------------------------------------------------------------
Roman numeral conversion (`_ROMAN_VALUES`, `roman_to_int`, `int_to_roman`,
identical in parser_letters.py and parser_discourses.py).
--------------------------------------------------------------------------- -/

/-- The `_ROMAN_VALUES` table. -/
def ROMAN_VALUES : List (List Char × Nat) :=
  [(str "M", 1000), (str "CM", 900), (str "D", 500), (str "CD", 400),
   (str "C", 100), (str "XC", 90), (str "L", 50), (str "XL", 40),
   (str "X", 10), (str "IX", 9), (str "V", 5), (str "IV", 4), (str "I", 1)]

/-- Inner loops of `roman_to_int`: for each table entry, repeatedly strip the
numeral from the front of the remaining input, accumulating its value; the
characters left over after the table is exhausted are ignored, exactly as in
the Python code (which never checks that the whole string was consumed).
The fuel dominates the iteration count: every step either consumes at least
one input character or moves to the next of the 13 table entries. -/
def roman_to_int_core : Nat → List (List Char × Nat) → List Char → Nat
  | 0, _, _ => 0
  | _, [], _ => 0
  | fuel + 1, (numeral, v) :: rest, s =>
    if isPrefixOfChars numeral s then
      v + roman_to_int_core fuel ((numeral, v) :: rest) (s.drop numeral.length)
    else roman_to_int_core fuel rest s

/-- `roman_to_int` from the Python sources. -/
def roman_to_int (s : List Char) : Nat :=
  roman_to_int_core (ROMAN_VALUES.length + s.length + 1) ROMAN_VALUES s

/-- Inner loops of `int_to_roman`: for each table entry, append the numeral
while the remaining value is at least the entry's value.  The fuel dominates
the iteration count: every step either decreases `n` by at least 1 or moves to
the next of the 13 table entries. -/
def int_to_roman_core : Nat → List (List Char × Nat) → Nat → List Char
  | 0, _, _ => []
  | _, [], _ => []
  | fuel + 1, (numeral, v) :: rest, n =>
    if v ≤ n then numeral ++ int_to_roman_core fuel ((numeral, v) :: rest) (n - v)
    else int_to_roman_core fuel rest n

/-- `int_to_roman` from the Python sources. -/
def int_to_roman (n : Nat) : List Char :=
  int_to_roman_core (ROMAN_VALUES.length + n + 1) ROMAN_VALUES n

/-- The fixed Roman-numeral alphabet. -/
def romanAlphabet : List Char := ['I', 'V', 'X', 'L', 'C', 'D', 'M']

/-- Bounded form of the round-trip property, established by evaluation. -/
theorem roman_roundtrip_below_125 :
    ∀ n : Nat, n < 125 → 1 ≤ n →
      roman_to_int (int_to_roman n) = n ∧
      (int_to_roman n).all (fun c => c ∈ romanAlphabet) = true := by decide

/-- C1: for every integer n with 1 ≤ n ≤ 124,
`roman_to_int (int_to_roman n) = n`, and the string `int_to_roman n` contains
only characters from the fixed Roman-numeral alphabet I, V, X, L, C, D, M. -/
theorem C1_roman_roundtrip (n : Nat) (h1 : 1 ≤ n) (h2 : n ≤ 124) :
    roman_to_int (int_to_roman n) = n ∧
    (int_to_roman n).all (fun c => c ∈ romanAlphabet) = true :=
  roman_roundtrip_below_125 n (by omega) h1

/-- C1 witness: instantiation of the round-trip theorem at n = 91. -/
theorem C1_roman_roundtrip_witness :
    roman_to_int (int_to_roman 91) = 91 ∧
    (int_to_roman 91).all (fun c => c ∈ romanAlphabet) = true :=
  C1_roman_roundtrip 91 (by decide) (by decide)

/- ---------------------------------------------------------------------------
Text Normalizer: `clean_text` of parser_meditations.py and
parser_discourses.py.

`clean_text` of parser_meditations.py performs, in order:
  text.replace('\r\n', '\n').replace('\r', '\n')
  re.sub(r'\n{3,}', '\n\n', text)
  re.sub(r'[^\S\n]+', ' ', text)
  '\n'.join(l.strip() for l in text.split('\n'))
  text.strip()
`clean_text` of parser_discourses.py is the same pipeline preceded by
  RE_FOOTNOTE_REF.sub('', text)      -- \s*\[\*[a-z0-9\-]+\]
  RE_INLINE_PAGE.sub('', text)       -- \[p\.\s*\d+\]
--------------------------------------------------------------------------- -/

/-- Python `text.replace('\r\n', '\n')`: left-to-right, non-overlapping. -/
def replaceCRLF : List Char → List Char
  | [] => []
  | [c] => [c]
  | c :: d :: rest =>
    if c = '\r' ∧ d = '\n' then '\n' :: replaceCRLF rest
    else c :: replaceCRLF (d :: rest)

/-- Python `text.replace('\r', '\n')`. -/
def replaceCR (s : List Char) : List Char :=
  s.map (fun c => if c = '\r' then '\n' else c)

/-- The two `replace` calls normalising line endings. -/
def normEOL (s : List Char) : List Char := replaceCR (replaceCRLF s)

/-- What a maximal run of `k` newlines becomes under `re.sub(r'\n{3,}', '\n\n', ·)`. -/
def emitNLRun (k : Nat) : List Char :=
  if 3 ≤ k then ['\n', '\n'] else List.replicate k '\n'

/-- Scanner for `re.sub(r'\n{3,}', '\n\n', ·)`: `k` counts the pending
newline run. -/
def collapseNL3Aux : Nat → List Char → List Char
  | k, [] => emitNLRun k
  | k, c :: rest =>
    if c = '\n' then collapseNL3Aux (k + 1) rest
    else emitNLRun k ++ c :: collapseNL3Aux 0 rest

/-- `re.sub(r'\n{3,}', '\n\n', ·)`: every maximal run of 3 or more newlines
becomes exactly two newlines; shorter runs are unchanged. -/
def collapseNL3 (s : List Char) : List Char := collapseNL3Aux 0 s

/-- Scanner for `re.sub(r'[^\S\n]+', ' ', ·)`: the flag records whether a
horizontal-whitespace run is pending. -/
def collapseHWSAux : Bool → List Char → List Char
  | pending, [] => if pending then [' '] else []
  | pending, c :: rest =>
    if isHWS c then collapseHWSAux true rest
    else (if pending then [' '] else []) ++ c :: collapseHWSAux false rest

/-- `re.sub(r'[^\S\n]+', ' ', ·)`: every maximal run of whitespace other than
newlines becomes a single space. -/
def collapseHWS (s : List Char) : List Char := collapseHWSAux false s

/-- Python `text.split('\n')`.  Never returns the empty list. -/
def splitOnNL : List Char → List (List Char)
  | [] => [[]]
  | c :: rest =>
    if c = '\n' then [] :: splitOnNL rest
    else
      match splitOnNL rest with
      | l :: ls => (c :: l) :: ls
      | [] => [[c]]

/-- Python `'\n'.join(...)`. -/
def joinNL : List (List Char) → List Char
  | [] => []
  | [l] => l
  | l :: ls => l ++ '\n' :: joinNL ls

/-- Python `'\n'.join(l.strip() for l in text.split('\n'))`. -/
def mapLinesStrip (s : List Char) : List Char :=
  joinNL ((splitOnNL s).map stripChars)

/-- `clean_text` of parser_meditations.py (also the shared tail of the
discourses `clean_text`). -/
def clean_text_meditations (s : List Char) : List Char :=
  stripChars (mapLinesStrip (collapseHWS (collapseNL3 (normEOL s))))

/-- Characters allowed in the body of a `[*...]` footnote reference:
the class `[a-z0-9\-]`. -/
def isFnRefChar (c : Char) : Bool := isLower c || isDigit c || c = '-'

/-- Try to match `RE_FOOTNOTE_REF = \s*\[\*[a-z0-9\-]+\]` at the head of `s`;
on success return the remainder after the match.  The `\s*` is greedy and a
shorter whitespace run would leave a whitespace character where `[` is
required, so the match takes the maximal whitespace run. -/
def tryFnRefMatch (s : List Char) : Option (List Char) :=
  let r := s.dropWhile pyWS
  if isPrefixOfChars (str "[*") r then
    let r2 := r.drop 2
    let w := r2.takeWhile isFnRefChar
    let r3 := r2.dropWhile isFnRefChar
    if w ≠ [] ∧ r3.head? = some ']' then some r3.tail else none
  else none

/-- Scanner for `RE_FOOTNOTE_REF.sub('', ·)`: at each position, remove the
leftmost match if one starts here, else advance one character.  Fuelled:
every step consumes at least one character. -/
def fnRefSubAux : Nat → List Char → List Char
  | 0, s => s
  | _, [] => []
  | fuel + 1, c :: rest =>
    match tryFnRefMatch (c :: rest) with
    | some r => fnRefSubAux fuel r
    | none => c :: fnRefSubAux fuel rest

/-- `RE_FOOTNOTE_REF.sub('', ·)`: delete all `\s*\[\*[a-z0-9\-]+\]` matches. -/
def fnRefSub (s : List Char) : List Char := fnRefSubAux s.length s

/-- Try to match `RE_INLINE_PAGE = \[p\.\s*\d+\]` at the head of `s`;
on success return the remainder after the match. -/
def tryPageMatch (s : List Char) : Option (List Char) :=
  if isPrefixOfChars (str "[p.") s then
    let r1 := s.drop 3
    let r2 := r1.dropWhile pyWS
    let ds := r2.takeWhile isDigit
    let r3 := r2.dropWhile isDigit
    if ds ≠ [] ∧ r3.head? = some ']' then some r3.tail else none
  else none

/-- Scanner for `RE_INLINE_PAGE.sub('', ·)` (fuelled, one character per step). -/
def pageSubAux : Nat → List Char → List Char
  | 0, s => s
  | _, [] => []
  | fuel + 1, c :: rest =>
    match tryPageMatch (c :: rest) with
    | some r => pageSubAux fuel r
    | none => c :: pageSubAux fuel rest

/-- `RE_INLINE_PAGE.sub('', ·)`: delete all `\[p\.\s*\d+\]` matches. -/
def pageSub (s : List Char) : List Char := pageSubAux s.length s

/-- `clean_text` of parser_discourses.py. -/
def clean_text_discourses (s : List Char) : List Char :=
  clean_text_meditations (pageSub (fnRefSub s))

/-- Detects a run of three or more consecutive newlines. -/
def hasNL3 : List Char → Bool
  | [] => false
  | [_] => false
  | [_, _] => false
  | a :: b :: c :: t => (a = '\n' && b = '\n' && c = '\n') || hasNL3 (b :: c :: t)

/- ---------------------------------------------------------------------------
Basic lemmas about stripping and line splitting.
--------------------------------------------------------------------------- -/

/-- `u` occurs contiguously inside `v`. -/
def InfixOf (u v : List Char) : Prop := ∃ a b, v = a ++ u ++ b

theorem InfixOf.refl (u : List Char) : InfixOf u u := ⟨[], [], by simp⟩

theorem InfixOf.trans {u v w : List Char} (h1 : InfixOf u v) (h2 : InfixOf v w) :
    InfixOf u w := by
  obtain ⟨a, b, rfl⟩ := h1
  obtain ⟨c, d, rfl⟩ := h2
  exact ⟨c ++ a, b ++ d, by simp⟩

theorem InfixOf.mem {u v : List Char} (h : InfixOf u v) {c : Char} (hc : c ∈ u) :
    c ∈ v := by
  obtain ⟨a, b, rfl⟩ := h
  simp [hc]

theorem dropWhile_infixOf (p : Char → Bool) (l : List Char) :
    InfixOf (l.dropWhile p) l := by
  induction l with
  | nil => exact ⟨[], [], rfl⟩
  | cons c t ih =>
    by_cases hc : p c
    · obtain ⟨a, b, hab⟩ := ih
      refine ⟨c :: a, b, ?_⟩
      rw [List.dropWhile_cons, if_pos hc, List.cons_append]
      exact congrArg (List.cons c) hab
    · refine ⟨[], [], ?_⟩
      rw [List.dropWhile_cons, if_neg hc]
      simp

theorem reverse_infixOf {u v : List Char} (h : InfixOf u v) :
    InfixOf u.reverse v.reverse := by
  obtain ⟨a, b, rfl⟩ := h
  exact ⟨b.reverse, a.reverse, by simp⟩

theorem dropTrailing_infixOf (p : Char → Bool) (l : List Char) :
    InfixOf (dropTrailing p l) l := by
  have h := reverse_infixOf (dropWhile_infixOf p l.reverse)
  simpa [dropTrailing] using h

theorem stripChars_infixOf (l : List Char) : InfixOf (stripChars l) l :=
  (dropTrailing_infixOf pyWS (l.dropWhile pyWS)).trans (dropWhile_infixOf pyWS l)

theorem mem_stripChars {c : Char} {l : List Char} (h : c ∈ stripChars l) : c ∈ l :=
  (stripChars_infixOf l).mem h

theorem head_dropWhile_false {p : Char → Bool} {l : List Char} {c : Char}
    (h : (l.dropWhile p).head? = some c) : p c = false := by
  induction l with
  | nil => simp at h
  | cons d t ih =>
    by_cases hd : p d
    · rw [List.dropWhile_cons, if_pos hd] at h
      exact ih h
    · rw [List.dropWhile_cons, if_neg hd] at h
      simp at h
      subst h
      simpa using hd

theorem dropWhile_eq_self_of_head {p : Char → Bool} {l : List Char}
    (h : ∀ c, l.head? = some c → p c = false) : l.dropWhile p = l := by
  cases l with
  | nil => rfl
  | cons c t =>
    have := h c rfl
    simp [List.dropWhile_cons, this]

theorem dropWhile_idem (p : Char → Bool) (l : List Char) :
    (l.dropWhile p).dropWhile p = l.dropWhile p :=
  dropWhile_eq_self_of_head (fun c hc => head_dropWhile_false hc)

theorem dropTrailing_idem (p : Char → Bool) (l : List Char) :
    dropTrailing p (dropTrailing p l) = dropTrailing p l := by
  simp [dropTrailing, dropWhile_idem]

/-- `dropTrailing` removes only trailing characters: the result is a prefix. -/
theorem dropTrailing_append (p : Char → Bool) (l : List Char) :
    l = dropTrailing p l ++ (l.reverse.takeWhile p).reverse := by
  unfold dropTrailing
  rw [← List.reverse_append, List.takeWhile_append_dropWhile, List.reverse_reverse]

theorem head_dropTrailing {p : Char → Bool} {l : List Char} {c : Char}
    (h : (dropTrailing p l).head? = some c) : l.head? = some c := by
  rcases hd : dropTrailing p l with _ | ⟨d, t⟩
  · rw [hd] at h
    simp at h
  · rw [hd] at h
    simp at h
    subst h
    have hap := dropTrailing_append p l
    rw [hd] at hap
    rw [hap]
    simp

/-- The head of a `stripChars` result is never whitespace. -/
theorem head_stripChars_false {l : List Char} {c : Char}
    (h : (stripChars l).head? = some c) : pyWS c = false :=
  head_dropWhile_false (head_dropTrailing h)

/-- The last character of a `stripChars` result is never whitespace. -/
theorem getLast_stripChars_false {l : List Char} {c : Char}
    (h : (stripChars l).getLast? = some c) : pyWS c = false := by
  unfold stripChars dropTrailing at h
  rw [List.getLast?_reverse] at h
  exact head_dropWhile_false h

theorem stripChars_idem (l : List Char) : stripChars (stripChars l) = stripChars l := by
  have h1 : (stripChars l).dropWhile pyWS = stripChars l :=
    dropWhile_eq_self_of_head (fun c hc => head_stripChars_false hc)
  show dropTrailing pyWS ((stripChars l).dropWhile pyWS) = stripChars l
  rw [h1]
  show dropTrailing pyWS (dropTrailing pyWS (l.dropWhile pyWS)) = stripChars l
  exact dropTrailing_idem pyWS (l.dropWhile pyWS)

/- ---------------------------------------------------------------------------
Lemmas about line splitting and joining.
--------------------------------------------------------------------------- -/

theorem splitOnNL_never_nil (s : List Char) : splitOnNL s ≠ [] := by
  cases s with
  | nil => simp [splitOnNL]
  | cons c rest =>
    by_cases hc : c = '\n'
    · simp [splitOnNL, hc]
    · simp only [splitOnNL, if_neg hc]
      rcases splitOnNL rest with _ | ⟨l, ls⟩ <;> simp

theorem joinNL_splitOnNL (s : List Char) : joinNL (splitOnNL s) = s := by
  induction s with
  | nil => rfl
  | cons c rest ih =>
    by_cases hc : c = '\n'
    · subst hc
      simp only [splitOnNL, if_pos rfl]
      rcases h : splitOnNL rest with _ | ⟨l, ls⟩
      · exact absurd h (splitOnNL_never_nil rest)
      · rw [h] at ih
        simp [joinNL, ih]
    · simp only [splitOnNL, if_neg hc]
      rcases h : splitOnNL rest with _ | ⟨l, ls⟩
      · exact absurd h (splitOnNL_never_nil rest)
      · rw [h] at ih
        rcases ls with _ | ⟨l2, ls2⟩
        · simp only [joinNL] at ih ⊢
          rw [ih]
        · simp only [joinNL, List.cons_append] at ih ⊢
          rw [← ih]

theorem splitOnNL_append_noNL {a s : List Char} (ha : '\n' ∉ a) :
    splitOnNL (a ++ s) =
      (a ++ (splitOnNL s).headI) :: (splitOnNL s).tail := by
  induction a with
  | nil =>
    rcases h : splitOnNL s with _ | ⟨l, ls⟩
    · exact absurd h (splitOnNL_never_nil s)
    · simp [h]
  | cons c a' ih =>
    have hc : c ≠ '\n' := by
      intro hcc
      exact ha (by simp [hcc])
    have ha' : '\n' ∉ a' := fun hm => ha (by simp [hm])
    simp only [List.cons_append, splitOnNL, if_neg hc, List.append_eq]
    rw [ih ha']

theorem splitOnNL_noNL {a : List Char} (ha : '\n' ∉ a) : splitOnNL a = [a] := by
  have := splitOnNL_append_noNL (s := []) ha
  simpa [splitOnNL] using this

theorem splitOnNL_cons_nl (s : List Char) :
    splitOnNL ('\n' :: s) = [] :: splitOnNL s := by
  simp [splitOnNL]

theorem noNL_of_mem_splitOnNL {s l : List Char} (h : l ∈ splitOnNL s) : '\n' ∉ l := by
  induction s generalizing l with
  | nil =>
    simp [splitOnNL] at h
    simp [h]
  | cons c rest ih =>
    by_cases hc : c = '\n'
    · rw [hc, splitOnNL_cons_nl] at h
      rcases List.mem_cons.1 h with h1 | h1
      · simp [h1]
      · exact ih h1
    · simp only [splitOnNL, if_neg hc] at h
      rcases hs : splitOnNL rest with _ | ⟨l0, ls⟩
      · exact absurd hs (splitOnNL_never_nil rest)
      · rw [hs] at h
        rcases List.mem_cons.1 h with h1 | h1
        · subst h1
          intro hm
          rcases List.mem_cons.1 hm with h2 | h2
          · exact hc h2.symm
          · exact ih (hs ▸ List.mem_cons_self l0 ls) h2
        · exact ih (hs ▸ List.mem_cons_of_mem l0 h1)

/-- The first line produced by `splitOnNL` is an initial segment of the input. -/
theorem headI_splitOnNL_append (s : List Char) :
    ∃ t, s = (splitOnNL s).headI ++ t := by
  induction s with
  | nil => exact ⟨[], by simp [splitOnNL]⟩
  | cons c rest ih =>
    by_cases hc : c = '\n'
    · exact ⟨c :: rest, by simp [hc, splitOnNL_cons_nl]⟩
    · obtain ⟨t, ht⟩ := ih
      refine ⟨t, ?_⟩
      simp only [splitOnNL, if_neg hc]
      rcases hs : splitOnNL rest with _ | ⟨l0, ls⟩
      · exact absurd hs (splitOnNL_never_nil rest)
      · rw [hs] at ht
        simp only [List.headI, List.cons_append]
        simp only [List.headI] at ht
        rw [← ht]

theorem infixOf_of_mem_splitOnNL {s l : List Char} (h : l ∈ splitOnNL s) :
    InfixOf l s := by
  induction s generalizing l with
  | nil =>
    simp [splitOnNL] at h
    subst h
    exact InfixOf.refl []
  | cons c rest ih =>
    by_cases hc : c = '\n'
    · rw [hc, splitOnNL_cons_nl] at h
      rcases List.mem_cons.1 h with h1 | h1
      · exact ⟨[], c :: rest, by simp [h1]⟩
      · obtain ⟨a, b, hab⟩ := ih h1
        exact ⟨'\n' :: a, b, by rw [hc]; simp [hab]⟩
    · simp only [splitOnNL, if_neg hc] at h
      rcases hs : splitOnNL rest with _ | ⟨l0, ls⟩
      · exact absurd hs (splitOnNL_never_nil rest)
      · rw [hs] at h
        rcases List.mem_cons.1 h with h1 | h1
        · subst h1
          obtain ⟨t, ht⟩ := headI_splitOnNL_append rest
          rw [hs] at ht
          simp only [List.headI] at ht
          exact ⟨[], t, by simp [ht]⟩
        · obtain ⟨a, b, hab⟩ := ih (hs ▸ List.mem_cons_of_mem l0 h1)
          exact ⟨c :: a, b, by simp [hab]⟩

theorem joinNL_cons_of_ne_nil {l : List Char} {ls : List (List Char)} (h : ls ≠ []) :
    joinNL (l :: ls) = l ++ '\n' :: joinNL ls := by
  rcases ls with _ | ⟨l2, ls2⟩
  · exact absurd rfl h
  · rfl

theorem splitOnNL_joinNL {M : List (List Char)} (hM : M ≠ [])
    (hnl : ∀ l ∈ M, '\n' ∉ l) : splitOnNL (joinNL M) = M := by
  induction M with
  | nil => exact absurd rfl hM
  | cons l ls ih =>
    by_cases hls : ls = []
    · subst hls
      simp only [joinNL]
      exact splitOnNL_noNL (hnl l (by simp))
    · rw [joinNL_cons_of_ne_nil hls]
      rw [splitOnNL_append_noNL (hnl l (by simp))]
      rw [splitOnNL_cons_nl]
      rw [ih hls (fun x hx => hnl x (List.mem_cons_of_mem l hx))]
      rcases ls with _ | _
      · exact absurd rfl hls
      · simp

theorem mem_joinNL {c : Char} {M : List (List Char)} (h : c ∈ joinNL M) :
    (∃ l ∈ M, c ∈ l) ∨ c = '\n' := by
  induction M with
  | nil => simp [joinNL] at h
  | cons l ls ih =>
    by_cases hls : ls = []
    · subst hls
      simp only [joinNL] at h
      exact Or.inl ⟨l, by simp, h⟩
    · rw [joinNL_cons_of_ne_nil hls] at h
      rcases List.mem_append.1 h with h1 | h1
      · exact Or.inl ⟨l, by simp, h1⟩
      · rcases List.mem_cons.1 h1 with h2 | h2
        · exact Or.inr h2
        · rcases ih h2 with ⟨l3, hl3, hc3⟩ | h3
          · exact Or.inl ⟨l3, List.mem_cons_of_mem l hl3, hc3⟩
          · exact Or.inr h3

theorem joinNL_append_singleton (A : List (List Char)) (x : List Char) :
    joinNL (A ++ [x]) = if A = [] then x else joinNL A ++ '\n' :: x := by
  induction A with
  | nil => simp [joinNL]
  | cons l ls ih =>
    by_cases hls : ls = []
    · subst hls
      simp [joinNL]
    · have h1 : (l :: ls) ++ [x] = l :: (ls ++ [x]) := by simp
      rw [h1, joinNL_cons_of_ne_nil (by simp), ih,
          joinNL_cons_of_ne_nil hls, if_neg hls, if_neg (by simp)]
      simp

theorem reverse_joinNL (M : List (List Char)) :
    (joinNL M).reverse = joinNL (M.reverse.map List.reverse) := by
  induction M with
  | nil => simp [joinNL]
  | cons l ls ih =>
    by_cases hls : ls = []
    · subst hls
      simp [joinNL]
    · rw [joinNL_cons_of_ne_nil hls]
      have h1 : (l :: ls).reverse.map List.reverse =
          ls.reverse.map List.reverse ++ [l.reverse] := by simp
      rw [h1, joinNL_append_singleton, if_neg (by simp [hls])]
      rw [← ih]
      simp

/- ---------------------------------------------------------------------------
Fixed points of the individual normalization stages.
--------------------------------------------------------------------------- -/

theorem replaceCRLF_eq_self {s : List Char} (h : '\r' ∉ s) : replaceCRLF s = s := by
  induction s with
  | nil => rfl
  | cons c rest ih =>
    have hc : c ≠ '\r' := fun hcc => h (by simp [hcc])
    have hrest : '\r' ∉ rest := fun hm => h (by simp [hm])
    rcases rest with _ | ⟨d, rest2⟩
    · rfl
    · rw [replaceCRLF, if_neg (fun hx => hc hx.1)]
      rw [ih hrest]

theorem replaceCR_eq_self {s : List Char} (h : '\r' ∉ s) : replaceCR s = s := by
  induction s with
  | nil => rfl
  | cons c rest ih =>
    have hc : c ≠ '\r' := fun hcc => h (by simp [hcc])
    have hrest : '\r' ∉ rest := fun hm => h (by simp [hm])
    unfold replaceCR at ih ⊢
    simp only [List.map_cons, if_neg hc]
    rw [ih hrest]

theorem normEOL_eq_self {s : List Char} (h : '\r' ∉ s) : normEOL s = s := by
  unfold normEOL
  rw [replaceCRLF_eq_self h, replaceCR_eq_self h]

theorem not_CR_mem_replaceCR (s : List Char) : '\r' ∉ replaceCR s := by
  unfold replaceCR
  intro hm
  rcases List.mem_map.1 hm with ⟨c, hc, heq⟩
  by_cases h : c = '\r' <;> simp [h] at heq

theorem not_CR_mem_normEOL (s : List Char) : '\r' ∉ normEOL s :=
  not_CR_mem_replaceCR (replaceCRLF s)

theorem mem_emitNLRun {c : Char} {k : Nat} (h : c ∈ emitNLRun k) : c = '\n' := by
  unfold emitNLRun at h
  by_cases hk : 3 ≤ k
  · rw [if_pos hk] at h
    simpa using h
  · rw [if_neg hk] at h
    exact List.eq_of_mem_replicate h

theorem mem_collapseNL3Aux {c : Char} {k : Nat} {s : List Char}
    (h : c ∈ collapseNL3Aux k s) : c ∈ s ∨ c = '\n' := by
  induction s generalizing k with
  | nil => exact Or.inr (mem_emitNLRun h)
  | cons d rest ih =>
    by_cases hd : d = '\n'
    · rw [collapseNL3Aux, if_pos hd] at h
      rcases ih h with h1 | h1
      · exact Or.inl (List.mem_cons_of_mem d h1)
      · exact Or.inr h1
    · rw [collapseNL3Aux, if_neg hd] at h
      rcases List.mem_append.1 h with h1 | h1
      · exact Or.inr (mem_emitNLRun h1)
      · rcases List.mem_cons.1 h1 with h2 | h2
        · exact Or.inl (h2 ▸ List.mem_cons_self d rest)
        · rcases ih h2 with h3 | h3
          · exact Or.inl (List.mem_cons_of_mem d h3)
          · exact Or.inr h3

theorem mem_collapseNL3 {c : Char} {s : List Char} (h : c ∈ collapseNL3 s) :
    c ∈ s ∨ c = '\n' := mem_collapseNL3Aux h

theorem mem_collapseHWSAux {c : Char} {pending : Bool} {s : List Char}
    (h : c ∈ collapseHWSAux pending s) : c ∈ s ∨ c = ' ' := by
  induction s generalizing pending with
  | nil =>
    rcases pending with _ | _
    · simp [collapseHWSAux] at h
    · simp [collapseHWSAux] at h
      exact Or.inr h
  | cons d rest ih =>
    by_cases hd : isHWS d
    · rw [collapseHWSAux, if_pos hd] at h
      rcases ih h with h1 | h1
      · exact Or.inl (List.mem_cons_of_mem d h1)
      · exact Or.inr h1
    · rw [collapseHWSAux, if_neg hd] at h
      rcases List.mem_append.1 h with h1 | h1
      · rcases pending with _ | _ <;> simp at h1
        exact Or.inr h1
      · rcases List.mem_cons.1 h1 with h2 | h2
        · exact Or.inl (h2 ▸ List.mem_cons_self d rest)
        · rcases ih h2 with h3 | h3
          · exact Or.inl (List.mem_cons_of_mem d h3)
          · exact Or.inr h3

theorem mem_collapseHWS {c : Char} {s : List Char} (h : c ∈ collapseHWS s) :
    c ∈ s ∨ c = ' ' := mem_collapseHWSAux h

theorem hasNL3_tail {c : Char} {t : List Char} (h : hasNL3 (c :: t) = false) :
    hasNL3 t = false := by
  rcases t with _ | ⟨d, t1⟩
  · rfl
  · rcases t1 with _ | ⟨e, t2⟩
    · rfl
    · rw [hasNL3] at h
      exact (Bool.or_eq_false_iff.1 h).2

theorem collapseNL3Aux_zero_eq_self :
    ∀ s : List Char, hasNL3 s = false → collapseNL3Aux 0 s = s
  | [], _ => rfl
  | [c], h => by
    by_cases hc : c = '\n' <;>
      simp [collapseNL3Aux, emitNLRun, hc]
  | [c, d], h => by
    by_cases hc : c = '\n' <;> by_cases hd : d = '\n' <;>
      simp [collapseNL3Aux, emitNLRun, hc, hd, List.replicate]
  | c :: d :: e :: t, h => by
    have hde : hasNL3 (d :: e :: t) = false := hasNL3_tail h
    have het : hasNL3 (e :: t) = false := hasNL3_tail hde
    have ht : hasNL3 t = false := hasNL3_tail het
    by_cases hc : c = '\n'
    · by_cases hd : d = '\n'
      · by_cases he : e = '\n'
        · exfalso
          rw [hasNL3, hc, hd, he] at h
          simp at h
        · subst hc
          subst hd
          rw [collapseNL3Aux, if_pos rfl, collapseNL3Aux, if_pos rfl,
              collapseNL3Aux, if_neg he,
              collapseNL3Aux_zero_eq_self t ht]
          simp [emitNLRun, List.replicate]
      · subst hc
        rw [collapseNL3Aux, if_pos rfl, collapseNL3Aux, if_neg hd,
            collapseNL3Aux_zero_eq_self (e :: t) het]
        simp [emitNLRun, List.replicate]
    · rw [collapseNL3Aux, if_neg hc,
          collapseNL3Aux_zero_eq_self (d :: e :: t) hde]
      simp [emitNLRun]
termination_by s => s.length

theorem collapseNL3_eq_self {s : List Char} (h : hasNL3 s = false) :
    collapseNL3 s = s := collapseNL3Aux_zero_eq_self s h

/- ---------------------------------------------------------------------------
The shape invariant of `collapseHWS` output: every horizontal-whitespace
character is a single space not adjacent to another horizontal-whitespace
character.
--------------------------------------------------------------------------- -/

/-- No two adjacent horizontal-whitespace characters. -/
def noAdjHWS : List Char → Prop
  | [] => True
  | [_] => True
  | c :: d :: t => ¬(isHWS c = true ∧ isHWS d = true) ∧ noAdjHWS (d :: t)

/-- Every horizontal-whitespace character is a plain space, and no two are
adjacent: the strings fixed by `collapseHWS`. -/
def GoodHWS (s : List Char) : Prop :=
  (∀ c ∈ s, isHWS c = true → c = ' ') ∧ noAdjHWS s

theorem noAdjHWS_tail {c : Char} {l : List Char} (h : noAdjHWS (c :: l)) :
    noAdjHWS l := by
  rcases l with _ | ⟨d, t⟩
  · trivial
  · exact h.2

theorem noAdjHWS_cons_of_not_hws {c : Char} {l : List Char}
    (hc : isHWS c = false) (h : noAdjHWS l) : noAdjHWS (c :: l) := by
  rcases l with _ | ⟨d, t⟩
  · trivial
  · exact ⟨fun hcd => by simp [hc] at hcd, h⟩

theorem noAdjHWS_append {a b : List Char} (ha : noAdjHWS a) (hb : noAdjHWS b)
    (hhead : ∀ c, b.head? = some c → isHWS c = false) : noAdjHWS (a ++ b) := by
  induction a with
  | nil => simpa using hb
  | cons x a' ih =>
    rcases a' with _ | ⟨y, a''⟩
    · rcases b with _ | ⟨d, t⟩
      · trivial
      · exact ⟨fun hcd => by simp [hhead d rfl] at hcd, hb⟩
    · exact ⟨ha.1, ih (noAdjHWS_tail ha)⟩

theorem noAdjHWS_append_right {a b : List Char} (h : noAdjHWS (a ++ b)) :
    noAdjHWS b := by
  induction a with
  | nil => simpa using h
  | cons x a' ih => exact ih (noAdjHWS_tail h)

theorem noAdjHWS_append_left {a b : List Char} (h : noAdjHWS (a ++ b)) :
    noAdjHWS a := by
  induction a with
  | nil => trivial
  | cons x a' ih =>
    rcases ha' : a' with _ | ⟨y, a''⟩
    · trivial
    · subst ha'
      exact ⟨h.1, ih (noAdjHWS_tail h)⟩

theorem GoodHWS_infixOf {u v : List Char} (h : InfixOf u v) (hv : GoodHWS v) :
    GoodHWS u := by
  obtain ⟨a, b, rfl⟩ := h
  constructor
  · exact fun c hc => hv.1 c (by simp [hc])
  · have h0 : noAdjHWS (a ++ (u ++ b)) := by
      have := hv.2
      rwa [List.append_assoc] at this
    exact noAdjHWS_append_left (noAdjHWS_append_right h0)

theorem GoodHWS_collapseHWSAux (pending : Bool) (s : List Char) :
    GoodHWS (collapseHWSAux pending s) := by
  induction s generalizing pending with
  | nil =>
    rcases pending with _ | _
    · exact ⟨by simp [collapseHWSAux], by simp [collapseHWSAux]; trivial⟩
    · refine ⟨?_, ?_⟩
      · intro c hc _
        simpa [collapseHWSAux] using hc
      · simp only [collapseHWSAux]
        trivial
  | cons d rest ih =>
    by_cases hd : isHWS d = true
    · rw [collapseHWSAux, if_pos hd]
      exact ih true
    · rw [collapseHWSAux, if_neg hd]
      have hrest := ih false
      have hcons : GoodHWS (d :: collapseHWSAux false rest) := by
        refine ⟨?_, ?_⟩
        · intro c hc hh
          rcases List.mem_cons.1 hc with h1 | h1
          · exact absurd (h1 ▸ hh) (by simp [hd])
          · exact hrest.1 c h1 hh
        · exact noAdjHWS_cons_of_not_hws (by simpa using hd) hrest.2
      rcases pending with _ | _
      · simpa using hcons
      · refine ⟨?_, ?_⟩
        · intro c hc hh
          simp only [List.cons_append, List.nil_append] at hc
          rcases List.mem_cons.1 hc with h1 | h1
          · exact h1
          · exact hcons.1 c h1 hh
        · simp only [List.cons_append, List.nil_append]
          exact ⟨fun hcd => hd hcd.2, hcons.2⟩

theorem collapseHWSAux_false_eq_self :
    ∀ s : List Char, GoodHWS s → collapseHWSAux false s = s
  | [], _ => rfl
  | [c], h => by
    by_cases hc : isHWS c = true
    · have hc' : c = ' ' := h.1 c (by simp) hc
      simp [collapseHWSAux, hc, hc']
    · simp [collapseHWSAux, hc]
  | c :: d :: t, h => by
    by_cases hc : isHWS c = true
    · have hc' : c = ' ' := h.1 c (by simp) hc
      have hd : isHWS d = false := by
        rcases h.2 with ⟨hpair, _⟩
        by_cases hdd : isHWS d = true
        · exact absurd ⟨hc, hdd⟩ hpair
        · simpa using hdd
      have ht : GoodHWS t :=
        ⟨fun x hx hh => h.1 x (by simp [hx]) hh,
         noAdjHWS_tail (noAdjHWS_tail h.2)⟩
      rw [collapseHWSAux, if_pos hc, collapseHWSAux, if_neg (by simp [hd]),
          collapseHWSAux_false_eq_self t ht]
      simp [hc']
    · have hr : GoodHWS (d :: t) :=
        ⟨fun x hx hh => h.1 x (by simp [hx]) hh, noAdjHWS_tail h.2⟩
      rw [collapseHWSAux, if_neg hc, collapseHWSAux_false_eq_self (d :: t) hr]
      simp
termination_by s => s.length

theorem collapseHWS_eq_self {s : List Char} (h : GoodHWS s) : collapseHWS s = s :=
  collapseHWSAux_false_eq_self s h

theorem GoodHWS_joinNL {M : List (List Char)} (h : ∀ l ∈ M, GoodHWS l) :
    GoodHWS (joinNL M) := by
  induction M with
  | nil => exact ⟨by simp [joinNL], by simp [joinNL]; trivial⟩
  | cons l ls ih =>
    by_cases hls : ls = []
    · subst hls
      simpa [joinNL] using h l (by simp)
    · rw [joinNL_cons_of_ne_nil hls]
      have hl := h l (by simp)
      have hrest := ih (fun x hx => h x (List.mem_cons_of_mem l hx))
      refine ⟨?_, ?_⟩
      · intro c hc hh
        rcases List.mem_append.1 hc with h1 | h1
        · exact hl.1 c h1 hh
        · rcases List.mem_cons.1 h1 with h2 | h2
          · exact absurd (h2 ▸ hh) (by simp [isHWS])
          · exact hrest.1 c h2 hh
      · refine noAdjHWS_append hl.2 ?_ ?_
        · exact noAdjHWS_cons_of_not_hws (by simp [isHWS]) hrest.2
        · intro c hc
          simp at hc
          subst hc
          decide

/- ---------------------------------------------------------------------------
Stripping a '\n'-join of stripped lines only trims empty boundary lines.
--------------------------------------------------------------------------- -/

theorem mem_dropWhile_subset {α : Type} {p : α → Bool} {l : List α} {x : α}
    (h : x ∈ l.dropWhile p) : x ∈ l := by
  induction l with
  | nil => simp at h
  | cons c t ih =>
    by_cases hc : p c = true
    · rw [List.dropWhile_cons, if_pos hc] at h
      exact List.mem_cons_of_mem c (ih h)
    · rw [List.dropWhile_cons, if_neg hc] at h
      exact h

/-- Lines remaining after removing empty lines from the back. -/
def dropTrailingEmpties (M : List (List Char)) : List (List Char) :=
  (M.reverse.dropWhile (fun l => l = [])).reverse

/-- Lines remaining after removing empty boundary lines. -/
def trimEmpties (M : List (List Char)) : List (List Char) :=
  dropTrailingEmpties (M.dropWhile (fun l => l = []))

theorem mem_dropTrailingEmpties_subset {M : List (List Char)} {x : List Char}
    (h : x ∈ dropTrailingEmpties M) : x ∈ M := by
  unfold dropTrailingEmpties at h
  rw [List.mem_reverse] at h
  have := mem_dropWhile_subset h
  rwa [List.mem_reverse] at this

theorem mem_trimEmpties_subset {M : List (List Char)} {x : List Char}
    (h : x ∈ trimEmpties M) : x ∈ M :=
  mem_dropWhile_subset (mem_dropTrailingEmpties_subset h)

/-- Leading whitespace of a join of head-clean lines is exactly the newlines
contributed by leading empty lines. -/
theorem dropWhile_joinNL {M : List (List Char)}
    (h : ∀ l ∈ M, ∀ c, l.head? = some c → pyWS c = false) :
    (joinNL M).dropWhile pyWS = joinNL (M.dropWhile (fun l => l = [])) := by
  induction M with
  | nil => rfl
  | cons l ls ih =>
    by_cases hls : ls = []
    · subst hls
      have hc0 := h l (by simp)
      cases l with
      | nil => rfl
      | cons c t =>
        have hc : pyWS c = false := hc0 c rfl
        simp [joinNL, List.dropWhile_cons, hc]
    · rw [joinNL_cons_of_ne_nil hls]
      have hih := ih (fun x hx => h x (List.mem_cons_of_mem l hx))
      cases l with
      | nil =>
        rw [List.nil_append, List.dropWhile_cons,
            if_pos (show pyWS '\n' = true by decide)]
        rw [List.dropWhile_cons]
        simpa using hih
      | cons c t =>
        have hc : pyWS c = false := h (c :: t) (by simp) c rfl
        rw [List.cons_append, List.dropWhile_cons, if_neg (by simp [hc])]
        rw [List.dropWhile_cons, if_neg (by simp)]
        rw [joinNL_cons_of_ne_nil hls, List.cons_append]

theorem dropWhile_map_reverse_empty (L : List (List Char)) :
    (L.map List.reverse).dropWhile (fun l => l = []) =
      (L.dropWhile (fun l => l = [])).map List.reverse := by
  induction L with
  | nil => rfl
  | cons l ls ih =>
    by_cases hl : l = []
    · subst hl
      simpa using ih
    · rw [List.map_cons, List.dropWhile_cons, if_neg (by simp [hl]),
          List.dropWhile_cons, if_neg (by simp [hl])]
      simp

/-- Trailing whitespace of a join of tail-clean lines is exactly the newlines
contributed by trailing empty lines. -/
theorem dropTrailing_joinNL {M : List (List Char)}
    (h : ∀ l ∈ M, ∀ c, l.getLast? = some c → pyWS c = false) :
    dropTrailing pyWS (joinNL M) = joinNL (dropTrailingEmpties M) := by
  unfold dropTrailing
  rw [reverse_joinNL]
  have hrev : ∀ l ∈ M.reverse.map List.reverse, ∀ c,
      l.head? = some c → pyWS c = false := by
    intro l hl c hc
    rcases List.mem_map.1 hl with ⟨l0, hl0, rfl⟩
    rw [List.head?_reverse] at hc
    exact h l0 (List.mem_reverse.1 hl0) c hc
  rw [dropWhile_joinNL hrev, dropWhile_map_reverse_empty]
  have hrj := reverse_joinNL ((M.reverse.dropWhile (fun l => l = [])).reverse)
  rw [List.reverse_reverse] at hrj
  rw [← hrj, List.reverse_reverse]
  rfl

/-- Stripping the join of already-stripped lines removes exactly the empty
boundary lines (lemma (T)). -/
theorem stripChars_joinNL {M : List (List Char)}
    (hstrip : ∀ l ∈ M, stripChars l = l) :
    stripChars (joinNL M) = joinNL (trimEmpties M) := by
  have hhead : ∀ l ∈ M, ∀ c, l.head? = some c → pyWS c = false := by
    intro l hl c hc
    exact head_stripChars_false (by rw [hstrip l hl]; exact hc)
  have hlast : ∀ l ∈ M.dropWhile (fun l => l = []), ∀ c,
      l.getLast? = some c → pyWS c = false := by
    intro l hl c hc
    have hm := mem_dropWhile_subset hl
    exact getLast_stripChars_false (by rw [hstrip l hm]; exact hc)
  unfold stripChars
  rw [dropWhile_joinNL hhead, dropTrailing_joinNL hlast]
  rfl

theorem map_stripChars_eq_self {L : List (List Char)}
    (h : ∀ l ∈ L, stripChars l = l) : L.map stripChars = L := by
  induction L with
  | nil => rfl
  | cons l ls ih =>
    rw [List.map_cons, h l (by simp), ih (fun x hx => h x (List.mem_cons_of_mem l hx))]

/-- Core fixed-point lemma: normalizing a string that is the strip of a join
of already-normalized lines is the identity, provided the string contains no
run of three or more newlines. -/
theorem clean_text_meditations_of_lines {M : List (List Char)}
    (hstrip : ∀ l ∈ M, stripChars l = l)
    (hnl : ∀ l ∈ M, '\n' ∉ l)
    (hgood : ∀ l ∈ M, GoodHWS l)
    (hnoCRM : ∀ l ∈ M, '\r' ∉ l)
    (h : hasNL3 (stripChars (joinNL M)) = false) :
    clean_text_meditations (stripChars (joinNL M)) = stripChars (joinNL M) := by
  have hrT : stripChars (joinNL M) = joinNL (trimEmpties M) := stripChars_joinNL hstrip
  have hnoCR : '\r' ∉ stripChars (joinNL M) := by
    intro hm
    rcases mem_joinNL (mem_stripChars hm) with ⟨l, hl, hc⟩ | hr
    · exact hnoCRM l hl hc
    · cases hr
  have hGood : GoodHWS (stripChars (joinNL M)) := by
    rw [hrT]
    exact GoodHWS_joinNL (fun l hl => hgood l (mem_trimEmpties_subset hl))
  have h1 : normEOL (stripChars (joinNL M)) = stripChars (joinNL M) :=
    normEOL_eq_self hnoCR
  have h2 : collapseNL3 (stripChars (joinNL M)) = stripChars (joinNL M) :=
    collapseNL3_eq_self h
  have h3 : collapseHWS (stripChars (joinNL M)) = stripChars (joinNL M) :=
    collapseHWS_eq_self hGood
  have h4 : mapLinesStrip (stripChars (joinNL M)) = stripChars (joinNL M) := by
    by_cases htrim : trimEmpties M = []
    · rw [hrT, htrim]
      rfl
    · have hsplit : splitOnNL (stripChars (joinNL M)) = trimEmpties M := by
        rw [hrT]
        exact splitOnNL_joinNL htrim (fun l hl => hnl l (mem_trimEmpties_subset hl))
      unfold mapLinesStrip
      rw [hsplit,
          map_stripChars_eq_self (fun l hl => hstrip l (mem_trimEmpties_subset hl)),
          ← hrT]
  have h5 : stripChars (stripChars (joinNL M)) = stripChars (joinNL M) :=
    stripChars_idem (joinNL M)
  show stripChars (mapLinesStrip (collapseHWS (collapseNL3 (normEOL
    (stripChars (joinNL M)))))) = stripChars (joinNL M)
  rw [h1, h2, h3, h4, h5]

/-- `clean_text` of parser_meditations.py is idempotent at every input whose
normalized output contains no run of three or more newline characters. -/
theorem clean_text_meditations_fix {x : List Char}
    (h : hasNL3 (clean_text_meditations x) = false) :
    clean_text_meditations (clean_text_meditations x) = clean_text_meditations x := by
  have hshape : clean_text_meditations x =
      stripChars (joinNL ((splitOnNL (collapseHWS (collapseNL3 (normEOL x)))).map
        stripChars)) := rfl
  have hstrip : ∀ l ∈ (splitOnNL (collapseHWS (collapseNL3 (normEOL x)))).map
      stripChars, stripChars l = l := by
    intro l hl
    rcases List.mem_map.1 hl with ⟨l0, _, rfl⟩
    exact stripChars_idem l0
  have hnl : ∀ l ∈ (splitOnNL (collapseHWS (collapseNL3 (normEOL x)))).map
      stripChars, '\n' ∉ l := by
    intro l hl hm
    rcases List.mem_map.1 hl with ⟨l0, hl0, rfl⟩
    exact noNL_of_mem_splitOnNL hl0 (mem_stripChars hm)
  have hgood : ∀ l ∈ (splitOnNL (collapseHWS (collapseNL3 (normEOL x)))).map
      stripChars, GoodHWS l := by
    intro l hl
    rcases List.mem_map.1 hl with ⟨l0, hl0, rfl⟩
    exact GoodHWS_infixOf (stripChars_infixOf l0)
      (GoodHWS_infixOf (infixOf_of_mem_splitOnNL hl0) (GoodHWS_collapseHWSAux false _))
  have hnoCRM : ∀ l ∈ (splitOnNL (collapseHWS (collapseNL3 (normEOL x)))).map
      stripChars, '\r' ∉ l := by
    intro l hl hm
    rcases List.mem_map.1 hl with ⟨l0, hl0, rfl⟩
    have hm0 : '\r' ∈ collapseHWS (collapseNL3 (normEOL x)) :=
      (infixOf_of_mem_splitOnNL hl0).mem (mem_stripChars hm)
    rcases mem_collapseHWS hm0 with h1 | h1
    · rcases mem_collapseNL3 h1 with h2 | h2
      · exact not_CR_mem_normEOL x h2
      · cases h2
    · cases h1
  rw [hshape] at h ⊢
  exact clean_text_meditations_of_lines hstrip hnl hgood hnoCRM h

/- ---------------------------------------------------------------------------
The discourses normalizer agrees with the meditations normalizer on inputs
without the bracket character that both substitution patterns require.
--------------------------------------------------------------------------- -/

theorem head_of_isPrefixOfChars {c : Char} {p s : List Char}
    (h : isPrefixOfChars (c :: p) s = true) : s.head? = some c := by
  rcases s with _ | ⟨d, t⟩
  · simp [isPrefixOfChars] at h
  · rcases Bool.and_eq_true_iff.1 h with ⟨h1, _⟩
    have : c = d := by simpa using h1
    simp [this]

theorem mem_of_head? {c : Char} {s : List Char} (h : s.head? = some c) : c ∈ s := by
  rcases s with _ | ⟨d, t⟩
  · simp at h
  · simp at h
    simp [h]

theorem tryFnRefMatch_none {s : List Char} (h : '[' ∉ s) : tryFnRefMatch s = none := by
  unfold tryFnRefMatch
  rw [if_neg]
  intro hpre
  exact h (mem_dropWhile_subset (mem_of_head? (head_of_isPrefixOfChars hpre)))

theorem tryPageMatch_none {s : List Char} (h : '[' ∉ s) : tryPageMatch s = none := by
  unfold tryPageMatch
  rw [if_neg]
  intro hpre
  exact h (mem_of_head? (head_of_isPrefixOfChars hpre))

theorem fnRefSubAux_cons (fuel : Nat) (c : Char) (rest : List Char) :
    fnRefSubAux (fuel + 1) (c :: rest) =
      match tryFnRefMatch (c :: rest) with
      | some r => fnRefSubAux fuel r
      | none => c :: fnRefSubAux fuel rest := rfl

theorem pageSubAux_cons (fuel : Nat) (c : Char) (rest : List Char) :
    pageSubAux (fuel + 1) (c :: rest) =
      match tryPageMatch (c :: rest) with
      | some r => pageSubAux fuel r
      | none => c :: pageSubAux fuel rest := rfl

theorem fnRefSubAux_eq_self :
    ∀ (fuel : Nat) (s : List Char), '[' ∉ s → fnRefSubAux fuel s = s
  | 0, s, _ => by cases s <;> rfl
  | fuel + 1, [], _ => rfl
  | fuel + 1, c :: rest, h => by
    rw [fnRefSubAux_cons, tryFnRefMatch_none h]
    rw [fnRefSubAux_eq_self fuel rest (fun hm => h (List.mem_cons_of_mem c hm))]

theorem pageSubAux_eq_self :
    ∀ (fuel : Nat) (s : List Char), '[' ∉ s → pageSubAux fuel s = s
  | 0, s, _ => by cases s <;> rfl
  | fuel + 1, [], _ => rfl
  | fuel + 1, c :: rest, h => by
    rw [pageSubAux_cons, tryPageMatch_none h]
    rw [pageSubAux_eq_self fuel rest (fun hm => h (List.mem_cons_of_mem c hm))]

theorem clean_text_discourses_eq_med {t : List Char} (h : '[' ∉ t) :
    clean_text_discourses t = clean_text_meditations t := by
  unfold clean_text_discourses fnRefSub pageSub
  rw [fnRefSubAux_eq_self t.length t h, pageSubAux_eq_self t.length t h]

/-- `clean_text` of parser_discourses.py is idempotent at every input whose
normalized output contains no run of three or more newlines and no bracket. -/
theorem clean_text_discourses_fix {t : List Char}
    (h3 : hasNL3 (clean_text_discourses t) = false)
    (hb : '[' ∉ clean_text_discourses t) :
    clean_text_discourses (clean_text_discourses t) = clean_text_discourses t := by
  rw [clean_text_discourses_eq_med hb]
  exact clean_text_meditations_fix (x := pageSub (fnRefSub t)) h3

/-- C4 counterexample: `clean_text` is not idempotent.  On the input
`"a\n \n \n \nb"` the three whitespace-only lines are stripped to empty lines
only after the blank-line collapsing step has already run, so the first
normalization returns `"a\n\n\n\nb"` and a second normalization collapses the
new newline run to `"a\n\nb"`.  This refutes the claim for both the
meditations and the discourses `clean_text`. -/
theorem C4_clean_text_not_idempotent :
    clean_text_meditations (clean_text_meditations (str "a\n \n \n \nb")) ≠
      clean_text_meditations (str "a\n \n \n \nb") ∧
    clean_text_discourses (clean_text_discourses (str "a\n \n \n \nb")) ≠
      clean_text_discourses (str "a\n \n \n \nb") := by
  constructor <;> decide

/-- C4 (amended): the Text Normalizer `clean_text` (meditations and
discourses variants) is idempotent on every input string whose normalized
output contains no run of three or more consecutive newline characters
(for the discourses variant: and no bracket character, which its two
deletion substitutions could otherwise match again). -/
theorem C4_clean_text_idempotent :
    (∀ t : List Char, hasNL3 (clean_text_meditations t) = false →
      clean_text_meditations (clean_text_meditations t) = clean_text_meditations t) ∧
    (∀ t : List Char, hasNL3 (clean_text_discourses t) = false →
      '[' ∉ clean_text_discourses t →
      clean_text_discourses (clean_text_discourses t) = clean_text_discourses t) :=
  ⟨fun t h => clean_text_meditations_fix h,
   fun t h3 hb => clean_text_discourses_fix h3 hb⟩

/-- C4 witness: the amended idempotence theorem applied at a concrete input. -/
theorem C4_clean_text_idempotent_witness :
    clean_text_meditations (clean_text_meditations (str "Hi  there\n\nfriend")) =
      clean_text_meditations (str "Hi  there\n\nfriend") ∧
    clean_text_discourses (clean_text_discourses (str "Hi  there\n\nfriend")) =
      clean_text_discourses (str "Hi  there\n\nfriend") :=
  ⟨C4_clean_text_idempotent.1 (str "Hi  there\n\nfriend") (by decide),
   C4_clean_text_idempotent.2 (str "Hi  there\n\nfriend") (by decide) (by decide)⟩

/- ---------------------------------------------------------------------------
Exact behaviour of the normalizer on a single run of newlines between two
whitespace-free blocks (claim C5).
--------------------------------------------------------------------------- -/

theorem collapseNL3Aux_append_noNL {a : List Char} (s : List Char)
    (ha : '\n' ∉ a) : collapseNL3Aux 0 (a ++ s) = a ++ collapseNL3Aux 0 s := by
  induction a with
  | nil => rfl
  | cons c t ih =>
    have hc : c ≠ '\n' := fun hcc => ha (by simp [hcc])
    rw [List.cons_append, collapseNL3Aux, if_neg hc,
        ih (fun hm => ha (by simp [hm]))]
    rfl

theorem collapseNL3Aux_run (j : Nat) :
    ∀ (k : Nat) (s : List Char),
      collapseNL3Aux j (List.replicate k '\n' ++ s) = collapseNL3Aux (j + k) s := by
  intro k
  induction k generalizing j with
  | zero => intro s; simp
  | succ m ih =>
    intro s
    rw [List.replicate_succ, List.cons_append, collapseNL3Aux, if_pos rfl, ih (j + 1)]
    congr 1
    omega

theorem collapseNL3Aux_zero_of_noNL {s : List Char} (h : '\n' ∉ s) :
    collapseNL3Aux 0 s = s := by
  induction s with
  | nil => rfl
  | cons c t ih =>
    have hc : c ≠ '\n' := fun hcc => h (by simp [hcc])
    rw [collapseNL3Aux, if_neg hc, ih (fun hm => h (by simp [hm]))]
    rfl

theorem emitNLRun_eq_min (k : Nat) : emitNLRun k = List.replicate (min k 2) '\n' := by
  unfold emitNLRun
  by_cases hk : 3 ≤ k
  · rw [if_pos hk]
    have : min k 2 = 2 := by omega
    rw [this]
    rfl
  · rw [if_neg hk]
    have : min k 2 = k := by omega
    rw [this]

theorem collapseNL3_concrete {a b : List Char} (k : Nat)
    (ha : '\n' ∉ a) (hb : '\n' ∉ b) (hbne : b ≠ []) :
    collapseNL3 (a ++ List.replicate k '\n' ++ b) =
      a ++ List.replicate (min k 2) '\n' ++ b := by
  unfold collapseNL3
  rw [List.append_assoc, collapseNL3Aux_append_noNL _ ha, collapseNL3Aux_run 0 k b]
  rcases b with _ | ⟨d, b'⟩
  · exact absurd rfl hbne
  · have hd : d ≠ '\n' := fun hdd => hb (by simp [hdd])
    rw [collapseNL3Aux, if_neg hd,
        collapseNL3Aux_zero_of_noNL (fun hm => hb (by simp [hm]))]
    rw [Nat.zero_add, emitNLRun_eq_min]
    simp

theorem noAdjHWS_of_no_hws {s : List Char} (h : ∀ c ∈ s, isHWS c = false) :
    noAdjHWS s := by
  induction s with
  | nil => trivial
  | cons c t ih =>
    exact noAdjHWS_cons_of_not_hws (h c (by simp))
      (ih (fun x hx => h x (List.mem_cons_of_mem c hx)))

theorem GoodHWS_of_no_hws {s : List Char} (h : ∀ c ∈ s, isHWS c = false) :
    GoodHWS s :=
  ⟨fun c hc hh => absurd hh (by simp [h c hc]), noAdjHWS_of_no_hws h⟩

theorem stripChars_eq_self_of_no_ws {l : List Char}
    (h : ∀ c ∈ l, pyWS c = false) : stripChars l = l := by
  unfold stripChars dropTrailing
  rw [dropWhile_eq_self_of_head (fun c hc => h c (mem_of_head? hc))]
  rw [dropWhile_eq_self_of_head
      (fun c hc => h c (List.mem_reverse.1 (mem_of_head? hc)))]
  exact l.reverse_reverse

theorem getLast?_eq_head?_reverse (l : List Char) : l.getLast? = l.reverse.head? :=
  (List.head?_reverse l).symm

theorem stripChars_eq_self_of_ends {l : List Char}
    (h1 : ∀ c, l.head? = some c → pyWS c = false)
    (h2 : ∀ c, l.getLast? = some c → pyWS c = false) : stripChars l = l := by
  unfold stripChars dropTrailing
  rw [dropWhile_eq_self_of_head h1]
  rw [dropWhile_eq_self_of_head
      (fun c hc => h2 c (by rw [getLast?_eq_head?_reverse]; exact hc))]
  exact l.reverse_reverse

theorem splitOnNL_replicate_append {b : List Char} (j : Nat) (hb : '\n' ∉ b) :
    splitOnNL (List.replicate j '\n' ++ b) = List.replicate j [] ++ [b] := by
  induction j with
  | zero => simpa using splitOnNL_noNL hb
  | succ m ih =>
    rw [List.replicate_succ, List.cons_append, splitOnNL_cons_nl, ih,
        List.replicate_succ, List.cons_append]

theorem head?_append_of_ne_nil {a z : List Char} (ha : a ≠ []) :
    (a ++ z).head? = a.head? := by
  rcases a with _ | ⟨c, t⟩
  · exact absurd rfl ha
  · rfl

theorem getLast?_append_of_ne_nil {z b : List Char} (hb : b ≠ []) :
    (z ++ b).getLast? = b.getLast? := by
  rw [getLast?_eq_head?_reverse, getLast?_eq_head?_reverse, List.reverse_append]
  exact head?_append_of_ne_nil (by simpa using hb)

theorem getLast?_mem {c : Char} {l : List Char} (h : l.getLast? = some c) : c ∈ l := by
  rw [getLast?_eq_head?_reverse] at h
  exact List.mem_reverse.1 (mem_of_head? h)

/-- What the meditations normalizer does to a single newline run between two
whitespace-free blocks: runs of three or more newlines become exactly two,
shorter runs are untouched. -/
theorem clean_text_meditations_run {a b : List Char} (k : Nat)
    (hane : a ≠ []) (hbne : b ≠ [])
    (ha : ∀ c ∈ a, pyWS c = false) (hb : ∀ c ∈ b, pyWS c = false) :
    clean_text_meditations (a ++ List.replicate k '\n' ++ b) =
      a ++ List.replicate (min k 2) '\n' ++ b := by
  have hnla : '\n' ∉ a := fun hm => absurd (ha '\n' hm) (by decide)
  have hnlb : '\n' ∉ b := fun hm => absurd (hb '\n' hm) (by decide)
  have hcr : '\r' ∉ a ++ List.replicate k '\n' ++ b := by
    intro hm
    rcases List.mem_append.1 hm with h1 | h1
    · rcases List.mem_append.1 h1 with h2 | h2
      · exact absurd (ha '\r' h2) (by decide)
      · exact absurd (List.eq_of_mem_replicate h2) (by decide)
    · exact absurd (hb '\r' h1) (by decide)
  have hchars : ∀ c ∈ a ++ List.replicate (min k 2) '\n' ++ b,
      pyWS c = false ∨ c = '\n' := by
    intro c hc
    rcases List.mem_append.1 hc with h1 | h1
    · rcases List.mem_append.1 h1 with h2 | h2
      · exact Or.inl (ha c h2)
      · exact Or.inr (List.eq_of_mem_replicate h2)
    · exact Or.inl (hb c h1)
  have h3 : collapseHWS (a ++ List.replicate (min k 2) '\n' ++ b) =
      a ++ List.replicate (min k 2) '\n' ++ b := by
    refine collapseHWS_eq_self (GoodHWS_of_no_hws (fun c hc => ?_))
    rcases hchars c hc with h | h
    · simp [isHWS, h]
    · simp [isHWS, h]
  have h4 : mapLinesStrip (a ++ List.replicate (min k 2) '\n' ++ b) =
      a ++ List.replicate (min k 2) '\n' ++ b := by
    unfold mapLinesStrip
    have hlines : ∀ l ∈ splitOnNL (a ++ List.replicate (min k 2) '\n' ++ b),
        stripChars l = l := by
      intro l hl
      refine stripChars_eq_self_of_no_ws (fun c hc => ?_)
      have hcs := (infixOf_of_mem_splitOnNL hl).mem hc
      rcases hchars c hcs with h | h
      · exact h
      · exact absurd (h ▸ hc) (noNL_of_mem_splitOnNL hl)
    rw [map_stripChars_eq_self hlines, joinNL_splitOnNL]
  have h5 : stripChars (a ++ List.replicate (min k 2) '\n' ++ b) =
      a ++ List.replicate (min k 2) '\n' ++ b := by
    refine stripChars_eq_self_of_ends (fun c hc => ?_) (fun c hc => ?_)
    · rw [List.append_assoc, head?_append_of_ne_nil hane] at hc
      exact ha c (mem_of_head? hc)
    · rw [getLast?_append_of_ne_nil hbne] at hc
      exact hb c (getLast?_mem hc)
  show stripChars (mapLinesStrip (collapseHWS (collapseNL3 (normEOL
    (a ++ List.replicate k '\n' ++ b))))) = _
  rw [normEOL_eq_self hcr, collapseNL3_concrete k hnla hnlb hbne, h3, h4, h5]

/-- C5 counterexample: a run of two consecutive blank lines (three newline
characters) between content lines is collapsed to a single blank line by
`clean_text`, not left with its original number of blank lines as the claim
states for runs of fewer than 3 blank lines. -/
theorem C5_blank_collapse_counterexample :
    clean_text_meditations (str "a\n\n\nb") = str "a\n\nb" ∧
    clean_text_meditations (str "a\n\n\nb") ≠ str "a\n\n\nb" ∧
    clean_text_discourses (str "a\n\n\nb") = str "a\n\nb" := by
  refine ⟨by decide, by decide, by decide⟩

/-- C5 (amended): `clean_text` collapses every run of three or more
consecutive newline characters (two or more blank lines) to exactly one blank
line (two newlines), and leaves runs of at most two newlines (at most one
blank line) unchanged — stated for a newline run between two blocks free of
whitespace and brackets. -/
theorem C5_blank_collapse :
    ∀ (k : Nat) (a b : List Char), a ≠ [] → b ≠ [] →
    (∀ c ∈ a, pyWS c = false ∧ c ≠ '[') →
    (∀ c ∈ b, pyWS c = false ∧ c ≠ '[') →
    clean_text_meditations (a ++ List.replicate k '\n' ++ b) =
      a ++ List.replicate (min k 2) '\n' ++ b ∧
    clean_text_discourses (a ++ List.replicate k '\n' ++ b) =
      a ++ List.replicate (min k 2) '\n' ++ b := by
  intro k a b hane hbne ha hb
  have hmed := clean_text_meditations_run k hane hbne
    (fun c hc => (ha c hc).1) (fun c hc => (hb c hc).1)
  refine ⟨hmed, ?_⟩
  have hbr : '[' ∉ a ++ List.replicate k '\n' ++ b := by
    intro hm
    rcases List.mem_append.1 hm with h1 | h1
    · rcases List.mem_append.1 h1 with h2 | h2
      · exact (ha '[' h2).2 rfl
      · exact absurd (List.eq_of_mem_replicate h2) (by decide)
    · exact (hb '[' h1).2 rfl
  rw [clean_text_discourses_eq_med hbr]
  exact hmed

/-- C5 witness: the amended collapsing theorem applied at a run of three
newlines (two blank lines). -/
theorem C5_blank_collapse_witness :
    clean_text_meditations (str "x" ++ List.replicate 3 '\n' ++ str "y") =
      str "x" ++ List.replicate (min 3 2) '\n' ++ str "y" ∧
    clean_text_discourses (str "x" ++ List.replicate 3 '\n' ++ str "y") =
      str "x" ++ List.replicate (min 3 2) '\n' ++ str "y" :=
  C5_blank_collapse 3 (str "x") (str "y") (by decide) (by decide)
    (by decide) (by decide)

/- ---------------------------------------------------------------------------
parser_letters.py: header classification, letter segmentation, text cleaning
and section building.
--------------------------------------------------------------------------- -/

/-- The `[IVXLC]` character class of the letter-header patterns. -/
def isRomanLetterChar (c : Char) : Bool :=
  c = 'I' || c = 'V' || c = 'X' || c = 'L' || c = 'C'

/-- The title character class of `RE_LETTER_HEADER`:
`[A-Z\s,'‘’\-\.\(\)]`. -/
def titleClass (c : Char) : Bool :=
  isUpper c || pyWS c || c = ',' || c = '\'' || c = '‘' || c = '’' ||
  c = '-' || c = '.' || c = '(' || c = ')'

/-- Matcher for the tail `(\[\d+\])?\s*$` of `RE_LETTER_HEADER` /
`RE_LETTER_91_HEADER`: either an inline footnote marker followed by optional
whitespace and the end, or only whitespace up to the end. -/
def tailOptMarkWS (r : List Char) : Bool :=
  (match r with
   | '[' :: r2 =>
     let ds := r2.takeWhile isDigit
     let r3 := r2.dropWhile isDigit
     !ds.isEmpty && r3.head? == some ']' && (r3.tail.dropWhile pyWS).isEmpty
   | _ => false) ||
  (r.dropWhile pyWS).isEmpty

/-- The lazy title group `([A-Z][A-Z\s,'‘’\-\.\(\)]+?)`: after the
initial `[A-Z]` character (already in `acc`), extend by at least one class
character and stop at the shortest extension whose remainder matches the tail
`(\[\d+\])?\s*$` — exactly Python's lazy `+?` backtracking order. -/
def lazyTitle (acc : List Char) : List Char → Option (List Char)
  | [] => none
  | c :: rest =>
    if titleClass c then
      if tailOptMarkWS rest then some (acc ++ [c])
      else lazyTitle (acc ++ [c]) rest
    else none

/-- `RE_LETTER_HEADER = ^([IVXLC]+)\.\s+([A-Z][A-Z\s,'‘’\-\.\(\)]+?)(\[\d+\])?\s*$`.
The leading `[IVXLC]+` is greedy and must be followed by a period (any
shorter run would end at a roman character, not a period), and `\s+` must be
the maximal whitespace run (a shorter run would leave a whitespace character
where `[A-Z]` is required).  Returns (group 1, group 2) on a match. -/
def matchLetterHeader (s : List Char) : Option (List Char × List Char) :=
  let roman := s.takeWhile isRomanLetterChar
  let r1 := s.dropWhile isRomanLetterChar
  if roman = [] then none
  else
    match r1 with
    | '.' :: r2 =>
      let ws := r2.takeWhile pyWS
      let r3 := r2.dropWhile pyWS
      if ws = [] then none
      else
        match r3 with
        | c :: r4 =>
          if isUpper c then (lazyTitle [c] r4).map (fun t => (roman, t))
          else none
        | [] => none
    | _ => none

/-- Tail `.*\s+\d+\s*$` of `RE_TOC_ENTRY`: the trailing whitespace and the
maximal digit run before it are forced; the `\s+` absorbs the whole
whitespace run before the digits (the dot cannot match a newline, so pushing
whitespace into `.*` never helps), and `.*` must then be newline-free. -/
def tocTail (r : List Char) : Bool :=
  let r1 := r.reverse.dropWhile pyWS
  let ds := r1.takeWhile isDigit
  let r2 := r1.dropWhile isDigit
  !ds.isEmpty &&
  (match r2.head? with | some c => pyWS c | none => false) &&
  !(r2.dropWhile pyWS).contains '\n'

/-- `RE_TOC_ENTRY = ^[IVXLC]+\.\s+[A-Z].*\s+\d+\s*$`. -/
def matchTocEntry (s : List Char) : Bool :=
  let roman := s.takeWhile isRomanLetterChar
  let r1 := s.dropWhile isRomanLetterChar
  !roman.isEmpty &&
  (match r1 with
   | '.' :: r2 =>
     let ws := r2.takeWhile pyWS
     let r3 := r2.dropWhile pyWS
     !ws.isEmpty &&
     (match r3 with
      | c :: r4 => isUpper c && tocTail r4
      | [] => false)
   | _ => false)

/-- `RE_APPARATUS_ENTRY = ^[IVXLC]+\.\s+\d+\.` (a prefix match). -/
def matchApparatus (s : List Char) : Bool :=
  let roman := s.takeWhile isRomanLetterChar
  let r1 := s.dropWhile isRomanLetterChar
  !roman.isEmpty &&
  (match r1 with
   | '.' :: r2 =>
     let ws := r2.takeWhile pyWS
     let r3 := r2.dropWhile pyWS
     let ds := r3.takeWhile isDigit
     let r4 := r3.dropWhile isDigit
     !ws.isEmpty && !ds.isEmpty && r4.head? == some '.'
   | _ => false)

/-- The literal of `RE_LETTER_91_HEADER`. -/
def LYONS_TITLE : List Char :=
  str "ON THE LESSON TO BE DRAWN FROM THE BURNING OF LYONS"

/-- `RE_LETTER_91_HEADER = ^ON THE LESSON ... LYONS(\[\d+\])?\s*$`. -/
def matchLetter91 (s : List Char) : Bool :=
  isPrefixOfChars LYONS_TITLE s && tailOptMarkWS (s.drop LYONS_TITLE.length)

/-- `RE_SEPARATOR = ^\*\s+\*\s+\*$`. -/
def matchSeparator (s : List Char) : Bool :=
  match s with
  | '*' :: r1 =>
    let ws1 := r1.takeWhile pyWS
    let r2 := r1.dropWhile pyWS
    !ws1.isEmpty &&
    (match r2 with
     | '*' :: r3 =>
       let ws2 := r3.takeWhile pyWS
       let r4 := r3.dropWhile pyWS
       !ws2.isEmpty && r4 == ['*']
     | _ => false)
  | _ => false

/-- `RE_FOOTNOTE_MARKER.sub('', ·)`: delete every inline `[N]` marker,
scanning left to right (fuelled, at least one character consumed per step). -/
def subFootnoteMarkerAux : Nat → List Char → List Char
  | 0, s => s
  | _, [] => []
  | fuel + 1, '[' :: rest =>
    let ds := rest.takeWhile isDigit
    let r2 := rest.dropWhile isDigit
    if !ds.isEmpty && r2.head? == some ']' then subFootnoteMarkerAux fuel r2.tail
    else '[' :: subFootnoteMarkerAux fuel rest
  | fuel + 1, c :: rest => c :: subFootnoteMarkerAux fuel rest

/-- `RE_FOOTNOTE_MARKER.sub('', s)` for `RE_FOOTNOTE_MARKER = \[\d+\]`. -/
def subFootnoteMarker (s : List Char) : List Char := subFootnoteMarkerAux s.length s

/-- Scanner for `re.sub(r' {2,}', ' ', ·)` of parser_letters.py: every run of
one-or-more spaces is emitted as a single space (runs of length one are kept,
longer runs collapse). -/
def collapseSpaces2Aux : Nat → List Char → List Char
  | k, [] => List.replicate (min k 1) ' '
  | k, c :: rest =>
    if c = ' ' then collapseSpaces2Aux (k + 1) rest
    else List.replicate (min k 1) ' ' ++ c :: collapseSpaces2Aux 0 rest

/-- `re.sub(r' {2,}', ' ', s)`: collapse runs of 2 or more spaces to one. -/
def collapseSpaces2 (s : List Char) : List Char := collapseSpaces2Aux 0 s

/-- `is_letter_header` from parser_letters.py. -/
def is_letter_header (line : List Char) : Option (Nat × List Char) :=
  let stripped := stripChars line
  if stripped = [] then none
  else if matchTocEntry stripped then none
  else if matchApparatus stripped then none
  else if matchLetter91 stripped then
    some (91, stripChars (subFootnoteMarker stripped))
  else
    match matchLetterHeader stripped with
    | some (roman, titleRaw) =>
      let title := rstripDots (stripChars titleRaw)
      let num := roman_to_int roman
      if 1 ≤ num ∧ num ≤ 124 then some (num, title) else none
    | none => none

/-- A raw letter produced by `parse_letters`. -/
structure RawLetter where
  number : Nat
  title : Option (List Char)
  lines : List (List Char)
deriving DecidableEq

/-- The loop state of `parse_letters` within one content region. -/
structure LettersState where
  currentNum : Option Nat
  currentTitle : Option (List Char)
  currentLines : List (List Char)
  letters : List RawLetter
deriving DecidableEq

/-- One iteration of the `parse_letters` loop (parser_letters.py lines
261-284): a header line closes the open letter and opens a new one,
separator lines are skipped, and all other lines are accumulated (unstripped)
into the open letter. -/
def letterStep (st : LettersState) (line : List Char) : LettersState :=
  let stripped := stripChars line
  match is_letter_header stripped with
  | some nt =>
    let letters' :=
      match st.currentNum with
      | some n => st.letters ++ [⟨n, st.currentTitle, st.currentLines⟩]
      | none => st.letters
    ⟨some nt.1, some nt.2, [], letters'⟩
  | none =>
    if matchSeparator stripped then st
    else if st.currentNum.isSome then
      { st with currentLines := st.currentLines ++ [line] }
    else st

/-- Closing flush at the end of a region (parser_letters.py lines 287-292). -/
def flushLetters (st : LettersState) : List RawLetter :=
  match st.currentNum with
  | some n => st.letters ++ [⟨n, st.currentTitle, st.currentLines⟩]
  | none => st.letters

/-- `parse_letters` from parser_letters.py: per region, scan the slice
`lines[start:end]` with a fresh state and flush the last open letter.
(The callers always pass in-range regions, so the Python index loop is the
`take`/`drop` slice.) -/
def parse_letters (lines : List (List Char)) (regions : List (Nat × Nat)) :
    List RawLetter :=
  regions.foldl
    (fun acc r =>
      let slice := (lines.drop r.1).take (r.2 - r.1)
      acc ++ flushLetters (slice.foldl letterStep ⟨none, none, [], []⟩))
    []

/-- The loop state of `clean_letter_text`. -/
structure CleanLetterState where
  cleaned : List (List Char)
  in_footnotes : Bool
deriving DecidableEq

/-- One iteration of the `clean_letter_text` loop (parser_letters.py lines
313-351): leading blanks are skipped, a `↑` line switches into footnote mode,
in footnote mode every line is skipped, and otherwise the line is cleaned of
inline markers and runs of spaces and appended. -/
def cleanLetterStep (st : CleanLetterState) (line : List Char) : CleanLetterState :=
  let stripped := stripChars line
  if st.cleaned = [] ∧ stripped = [] then st
  else if stripped.head? = some '↑' then { st with in_footnotes := true }
  else if st.in_footnotes then st
  else
    let lc := stripChars (collapseSpaces2 (subFootnoteMarker stripped))
    { st with cleaned := st.cleaned ++ [lc] }

/-- `clean_letter_text` from parser_letters.py (the `letter_num` parameter is
unused there as well). -/
def clean_letter_text (lines : List (List Char)) (letter_num : Nat) : List Char :=
  let st := lines.foldl cleanLetterStep ⟨[], false⟩
  stripChars (collapseNL3 (joinNL st.cleaned))

/-- A section record of the letters converter. -/
structure LetterSection where
  id : List Char
  book : Option Nat
  book_title : Option (List Char)
  chapter : Option Nat
  chapter_title : Option (List Char)
  letter_number : Nat
  letter_title : Option (List Char)
  text : List Char
  word_count : Nat
  source_reference : List Char
deriving DecidableEq

/-- `build_sections` from parser_letters.py: clean each letter, skip the
letters whose text is empty after cleaning, and attach id, word count and
source reference. -/
def build_sections_letters (raw_letters : List RawLetter) : List LetterSection :=
  raw_letters.filterMap (fun letter =>
    let text := clean_letter_text letter.lines letter.number
    if text = [] then none
    else some {
      id := str "letters_" ++ padZeros 3 (natDecimal letter.number)
      book := none
      book_title := none
      chapter := none
      chapter_title := none
      letter_number := letter.number
      letter_title := letter.title
      text := text
      word_count := countWords text
      source_reference := str "Letter " ++ int_to_roman letter.number ++
        str " (" ++ natDecimal letter.number ++ str ")" })

/-- The letter numbers of the built sections form a sublist of the numbers of
the raw letters (`build_sections` only filters out empty letters). -/
theorem build_letters_numbers_sublist (raws : List RawLetter) :
    List.Sublist
      ((build_sections_letters raws).map LetterSection.letter_number)
      (raws.map RawLetter.number) := by
  induction raws with
  | nil => simp [build_sections_letters]
  | cons r rs ih =>
    unfold build_sections_letters at ih ⊢
    rw [List.filterMap_cons]
    by_cases h : clean_letter_text r.lines r.number = []
    · rw [if_pos h]
      exact List.Sublist.cons r.number ih
    · rw [if_neg h]
      rw [List.map_cons, List.map_cons]
      exact List.Sublist.cons₂ r.number ih

/-- C2 counterexample: HierarchyKey uniqueness does not hold for every input
line stream.  A stream in which the header line "I. ON SAVING TIME" occurs
twice produces two sections that both carry letter number 1. -/
theorem C2_uniqueness_counterexample :
    ((build_sections_letters (parse_letters
        [str "I. ON SAVING TIME", str "Hello world.",
         str "I. ON SAVING TIME", str "Hello again."]
        [(0, 4)])).map LetterSection.letter_number) = [1, 1] ∧
    ¬ ((build_sections_letters (parse_letters
        [str "I. ON SAVING TIME", str "Hello world.",
         str "I. ON SAVING TIME", str "Hello again."]
        [(0, 4)])).map LetterSection.letter_number).Nodup := by
  refine ⟨by decide, by decide⟩

/-- C2 (amended): `parse_letters` followed by `build_sections` emits sections
with pairwise distinct letter numbers whenever the raw letters produced by
`parse_letters` carry pairwise distinct numbers; duplicate accepted headers
propagate to duplicate keys in the output (which are only reported by the
validator), they are not merged or guaranteed absent for every input. -/
theorem C2_letter_number_uniqueness (lines : List (List Char))
    (regions : List (Nat × Nat))
    (h : ((parse_letters lines regions).map RawLetter.number).Nodup) :
    ((build_sections_letters (parse_letters lines regions)).map
      LetterSection.letter_number).Nodup :=
  (build_letters_numbers_sublist (parse_letters lines regions)).nodup h

/-- C2 witness: the amended uniqueness theorem at a concrete two-letter input. -/
theorem C2_letter_number_uniqueness_witness :
    ((parse_letters
        [str "I. ON SAVING TIME", str "Hello there friend.",
         str "II. ON DISCURSIVENESS IN READING", str "More text here."]
        [(0, 4)]).map RawLetter.number).Nodup ∧
    ((build_sections_letters (parse_letters
        [str "I. ON SAVING TIME", str "Hello there friend.",
         str "II. ON DISCURSIVENESS IN READING", str "More text here."]
        [(0, 4)])).map LetterSection.letter_number).Nodup :=
  ⟨by decide,
   C2_letter_number_uniqueness
     [str "I. ON SAVING TIME", str "Hello there friend.",
      str "II. ON DISCURSIVENESS IN READING", str "More text here."]
     [(0, 4)] (by decide)⟩

/-- C8: the line "ON THE LESSON TO BE DRAWN FROM THE BURNING OF LYONS",
which lacks the Roman-numeral prefix required by the general letter-header
rule, is still recognized by `is_letter_header` — with or without a trailing
footnote marker — and opens a letter with the manually-mapped number 91. -/
theorem C8_letter_91_anomaly :
    is_letter_header LYONS_TITLE = some (91, LYONS_TITLE) ∧
    is_letter_header (LYONS_TITLE ++ str "[1]") = some (91, LYONS_TITLE) ∧
    matchLetterHeader LYONS_TITLE = none ∧
    (letterStep ⟨none, none, [], []⟩ (LYONS_TITLE ++ str "[1]")).currentNum =
      some 91 ∧
    (parse_letters [LYONS_TITLE ++ str "[1]", str "Dearest Lucilius."]
        [(0, 2)]).map RawLetter.number = [91] := by
  refine ⟨by decide, by decide, by decide, by decide, by decide⟩

/-- C10: once `clean_letter_text` meets a line starting with the footnote
sentinel `↑`, no later line of the letter contributes anything to the result:
cleaning `pre ++ [arrow] ++ post` equals cleaning `pre` alone. -/
theorem C10_footnote_tail_suppression (pre post : List (List Char))
    (arrow : List Char) (num : Nat)
    (h : (stripChars arrow).head? = some '↑') :
    clean_letter_text (pre ++ arrow :: post) num = clean_letter_text pre num := by
  unfold clean_letter_text
  have hcl : ((pre ++ arrow :: post).foldl cleanLetterStep ⟨[], false⟩).cleaned =
      (pre.foldl cleanLetterStep ⟨[], false⟩).cleaned := by
    rw [List.foldl_append]
    have harrow : ∀ st : CleanLetterState,
        cleanLetterStep st arrow = ⟨st.cleaned, true⟩ := by
      intro st
      unfold cleanLetterStep
      have hne : stripChars arrow ≠ [] := by
        intro h0
        rw [h0] at h
        simp at h
      rw [if_neg (fun hand => hne hand.2), if_pos h]
    have hfrozen : ∀ (rest : List (List Char)) (C : List (List Char)),
        rest.foldl cleanLetterStep ⟨C, true⟩ = ⟨C, true⟩ := by
      intro rest
      induction rest with
      | nil => intro C; rfl
      | cons l t ih =>
        intro C
        rw [List.foldl_cons]
        have hstep : cleanLetterStep ⟨C, true⟩ l = ⟨C, true⟩ := by
          unfold cleanLetterStep
          by_cases h1 : C = [] ∧ stripChars l = []
          · rw [if_pos h1]
          · rw [if_neg h1]
            by_cases h2 : (stripChars l).head? = some '↑'
            · rw [if_pos h2]
            · rw [if_neg h2, if_pos rfl]
        rw [hstep, ih]
    rw [List.foldl_cons, harrow, hfrozen]
  show stripChars (collapseNL3 (joinNL
      ((pre ++ arrow :: post).foldl cleanLetterStep ⟨[], false⟩).cleaned)) =
    stripChars (collapseNL3 (joinNL
      (pre.foldl cleanLetterStep ⟨[], false⟩).cleaned))
  rw [hcl]

/-- C10 witness: suppression theorem applied at a concrete letter. -/
theorem C10_footnote_tail_suppression_witness :
    (stripChars (str "↑ On the festival of Saturn.")).head? = some '↑' ∧
    clean_letter_text
        ([str "Greetings from Seneca."] ++
          str "↑ On the festival of Saturn." :: [str "Ordinary prose after."]) 18 =
      clean_letter_text [str "Greetings from Seneca."] 18 :=
  ⟨by decide,
   C10_footnote_tail_suppression [str "Greetings from Seneca."]
     [str "Ordinary prose after."] (str "↑ On the festival of Saturn.") 18
     (by decide)⟩

/- ---------------------------------------------------------------------------
parser_meditations.py: header/footer stripping, book splitting, section
splitting and section building.
--------------------------------------------------------------------------- -/

/-- First index (scanning forward from `i`) whose line satisfies `p`. -/
def findIdxFrom (p : List Char → Bool) : Nat → List (List Char) → Option Nat
  | _, [] => none
  | i, l :: rest => if p l then some i else findIdxFrom p (i + 1) rest

/-- Index of the first matching line. -/
def findIdxFwd (p : List Char → Bool) (lines : List (List Char)) : Option Nat :=
  findIdxFrom p 0 lines

/-- Index of the last matching line (the Python loops scan backwards). -/
def findIdxBwd (p : List Char → Bool) (lines : List (List Char)) : Option Nat :=
  (findIdxFrom p 0 lines.reverse).map (fun i => lines.length - 1 - i)

/-- The `WORD_TO_NUM` table of parser_meditations.py. -/
def WORD_TO_NUM : List (List Char × Nat) :=
  [(str "ONE", 1), (str "TWO", 2), (str "THREE", 3), (str "FOUR", 4),
   (str "FIVE", 5), (str "SIX", 6), (str "SEVEN", 7), (str "EIGHT", 8),
   (str "NINE", 9), (str "TEN", 10), (str "ELEVEN", 11), (str "TWELVE", 12)]

/-- The `BOOK_WORD_TO_TITLE` table of parser_meditations.py. -/
def BOOK_WORD_TO_TITLE : List (Nat × List Char) :=
  [(1, str "Book One"), (2, str "Book Two"), (3, str "Book Three"),
   (4, str "Book Four"), (5, str "Book Five"), (6, str "Book Six"),
   (7, str "Book Seven"), (8, str "Book Eight"), (9, str "Book Nine"),
   (10, str "Book Ten"), (11, str "Book Eleven"), (12, str "Book Twelve")]

/-- `RE_BOOK_HEADER = ^BOOK\s+(ONE|TWO|...|TWELVE)$` of parser_meditations.py:
the literal `BOOK`, at least one whitespace character, then exactly one of the
twelve ordinal words up to the end of the line. -/
def matchMedBookHeader (s : List Char) : Option Nat :=
  if isPrefixOfChars (str "BOOK") s then
    let r1 := s.drop 4
    let ws := r1.takeWhile pyWS
    let r2 := r1.dropWhile pyWS
    if ws.isEmpty then none
    else (WORD_TO_NUM.find? (fun p => p.1 == r2)).map (fun p => p.2)
  else none

/-- `RE_SEPARATOR = ^-{10,}$` of parser_meditations.py. -/
def matchDashSeparator (s : List Char) : Bool :=
  decide (10 ≤ s.length) && s.all (fun c => c = '-')

/-- A literal followed by `\s*$`. -/
def matchLitThenWS (lit s : List Char) : Bool :=
  isPrefixOfChars lit s && ((s.drop lit.length).dropWhile pyWS).isEmpty

/-- `RE_COLOPHON_BOOK1 = ^Among the Quadi at the Granua\.\s*$`. -/
def matchColophon1 (s : List Char) : Bool :=
  matchLitThenWS (str "Among the Quadi at the Granua.") s

/-- `RE_COLOPHON_BOOK2 = ^This in Carnuntum\.\s*$`. -/
def matchColophon2 (s : List Char) : Bool :=
  matchLitThenWS (str "This in Carnuntum.") s

/-- `strip_header_footer` from parser_meditations.py: the content starts at
the first line matching the book-header pattern and equal to `BOOK ONE`, and
ends before the last `THE END` line; if either anchor is missing the run is
fatal (`sys.exit(1)` modelled as `Except.error`). -/
def strip_header_footer (lines : List (List Char)) :
    Except (List Char) (List (List Char)) :=
  match findIdxFwd
      (fun l => (matchMedBookHeader (stripChars l)).isSome &&
        stripChars l == str "BOOK ONE") lines with
  | none => .error (str "Could not find BOOK ONE - unable to locate content start.")
  | some s =>
    match findIdxBwd (fun l => stripChars l == str "THE END") lines with
    | none => .error (str "Could not find THE END - unable to locate content end.")
    | some e => .ok ((lines.take e).drop s)

/-- The loop state of `split_into_books`. -/
structure MedBooksState where
  currentBookNum : Option Nat
  currentLines : List (List Char)
  books : List (Nat × List (List Char))
deriving DecidableEq

/-- One iteration of the `split_into_books` loop. -/
def medBookStep (st : MedBooksState) (line : List Char) : MedBooksState :=
  let stripped := stripChars line
  match matchMedBookHeader stripped with
  | some n =>
    let books' := match st.currentBookNum with
      | some b => st.books ++ [(b, st.currentLines)]
      | none => st.books
    ⟨some n, [], books'⟩
  | none =>
    if matchDashSeparator stripped then st
    else { st with currentLines := st.currentLines ++ [line] }

/-- `split_into_books` from parser_meditations.py. -/
def split_into_books (lines : List (List Char)) : List (Nat × List (List Char)) :=
  let st := lines.foldl medBookStep ⟨none, [], []⟩
  match st.currentBookNum with
  | some b => st.books ++ [(b, st.currentLines)]
  | none => st.books

/-- Python `' '`-free join used by `split_book_into_sections` is `'\n'.join`;
the colophon merge concatenates with a double newline. -/
def attachColophon (matchFn : List Char → Bool) (sections : List (List Char)) :
    List (List Char) :=
  match sections.getLast? with
  | some last =>
    if matchFn (stripChars last) then
      let rest := sections.dropLast
      match rest.getLast? with
      | some prev => rest.dropLast ++ [prev ++ str "\n\n" ++ last]
      | none => [last]
    else sections
  | none => sections

/-- `split_book_into_sections` from parser_meditations.py: sections are
blank-line-separated runs of stripped lines; for books 1 and 2 a trailing
location colophon is merged into the previous section. -/
def split_book_into_sections (book_num : Nat) (lines : List (List Char)) :
    List (List Char) :=
  let step := fun (acc : List (List Char) × List (List Char)) (line : List Char) =>
    let stripped := stripChars line
    if stripped = [] then
      if acc.2 ≠ [] then (acc.1 ++ [joinNL acc.2], []) else acc
    else (acc.1, acc.2 ++ [stripped])
  let acc := lines.foldl step ([], [])
  let sections0 := if acc.2 ≠ [] then acc.1 ++ [joinNL acc.2] else acc.1
  let sections1 := if book_num = 1 then attachColophon matchColophon1 sections0
                   else sections0
  if book_num = 2 then attachColophon matchColophon2 sections1 else sections1

/-- A section record of the meditations converter. -/
structure MedSection where
  id : List Char
  book : Nat
  book_title : Option (List Char)
  chapter : Option Nat
  chapter_title : Option (List Char)
  «section» : Nat
  letter_number : Option Nat
  text : List Char
  word_count : Nat
  source_reference : List Char
deriving DecidableEq

/-- `build_sections` from parser_meditations.py: split each book into
sections, clean each, skip the empty ones and attach metadata (the section
index counts the raw sections starting from 1, as `enumerate(..., start=1)`). -/
def build_sections_meditations (books : List (Nat × List (List Char))) :
    List MedSection :=
  (books.map (fun bk =>
    ((split_book_into_sections bk.1 bk.2).enum).filterMap (fun p =>
      let text := clean_text_meditations p.2
      if text = [] then none
      else some {
        id := str "meditations_b" ++ natDecimal bk.1 ++ str "_s" ++
          natDecimal (p.1 + 1)
        book := bk.1
        book_title := (BOOK_WORD_TO_TITLE.find? (fun q => q.1 == bk.1)).map
          (fun q => q.2)
        chapter := none
        chapter_title := none
        «section» := p.1 + 1
        letter_number := none
        text := text
        word_count := countWords text
        source_reference := str "Book " ++ natDecimal bk.1 ++
          str ", Section " ++ natDecimal (p.1 + 1) }))).flatten

/-- The meditations pipeline up to the built sections: a fatal anchor failure
short-circuits and no sections are produced. -/
def meditationsRun (lines : List (List Char)) :
    Except (List Char) (List MedSection) :=
  (strip_header_footer lines).map
    (fun content => build_sections_meditations (split_into_books content))

/- ---------------------------------------------------------------------------
parser_shortness.py: content-start detection, chapter parsing, chapter
cleaning and section building.
--------------------------------------------------------------------------- -/

/-- `RE_CHAPTER_HEADER = ^(\d+)\.\s*(.*)` of parser_shortness.py: a maximal
digit run followed by a period; group 2 is the rest after the (greedy)
whitespace run.  A prefix match: it succeeds on any such line. -/
def matchShortChapter (s : List Char) : Option (Nat × List Char) :=
  let ds := s.takeWhile isDigit
  let r1 := s.dropWhile isDigit
  if ds.isEmpty then none
  else
    match r1 with
    | '.' :: r2 => some (digitsToNat ds, r2.dropWhile pyWS)
    | _ => none

/-- `RE_FOOTNOTES_HEADER = ^Footnotes\s*$`. -/
def matchFootnotesHeader (s : List Char) : Bool :=
  matchLitThenWS (str "Footnotes") s

/-- `find_content_start` from parser_shortness.py: index of the first line
whose chapter-header match has number 1; missing chapter 1 is fatal. -/
def find_content_start (lines : List (List Char)) : Except (List Char) Nat :=
  match findIdxFwd
      (fun l => match matchShortChapter (stripChars l) with
        | some p => p.1 == 1
        | none => false) lines with
  | some i => .ok i
  | none => .error (str "Could not find the start of chapter 1.")

/-- A raw chapter of parser_shortness.py. -/
structure ShortRawChapter where
  number : Nat
  first_line_text : Option (List Char)
  lines : List (List Char)
deriving DecidableEq

/-- The loop state of `parse_chapters`. -/
structure ShortState where
  currentNum : Option Nat
  currentFirst : Option (List Char)
  currentLines : List (List Char)
  in_footnotes : Bool
  chapters : List ShortRawChapter
deriving DecidableEq

/-- Close the open chapter, if any. -/
def flushShort (st : ShortState) : List ShortRawChapter :=
  match st.currentNum with
  | some n => st.chapters ++ [⟨n, st.currentFirst, st.currentLines⟩]
  | none => st.chapters

/-- One iteration of the `parse_chapters` loop (parser_shortness.py lines
135-186): a `Footnotes` header enters footnote mode; in footnote mode only a
plausible chapter header (1-20) leaves it; outside footnote mode a plausible
chapter header opens a new chapter and any other line is appended raw. -/
def shortStep (st : ShortState) (line : List Char) : ShortState :=
  let stripped := stripChars line
  if matchFootnotesHeader stripped then { st with in_footnotes := true }
  else if st.in_footnotes then
    match matchShortChapter stripped with
    | some p =>
      if 1 ≤ p.1 ∧ p.1 ≤ 20 then
        ⟨some p.1, some p.2, [], false, flushShort st⟩
      else st
    | none => st
  else
    match matchShortChapter stripped with
    | some p =>
      if 1 ≤ p.1 ∧ p.1 ≤ 20 then
        ⟨some p.1, some p.2, [], st.in_footnotes, flushShort st⟩
      else if st.currentNum.isSome then
        { st with currentLines := st.currentLines ++ [line] }
      else st
    | none =>
      if st.currentNum.isSome then
        { st with currentLines := st.currentLines ++ [line] }
      else st

/-- `parse_chapters` from parser_shortness.py. -/
def parse_chapters (lines : List (List Char)) (start_idx : Nat) :
    List ShortRawChapter :=
  flushShort ((lines.drop start_idx).foldl shortStep ⟨none, none, [], false, []⟩)

/-- The scan of `clean_chapter_text` that collects stripped lines and stops
(Python `break`) at a `Footnotes` header or a `↑` line. -/
def takeUntilFootnote : List (List Char) → List (List Char)
  | [] => []
  | l :: rest =>
    let stripped := stripChars l
    if matchFootnotesHeader stripped then []
    else if stripped.head? = some '↑' then []
    else stripped :: takeUntilFootnote rest

/-- Python `' '.join`. -/
def joinSpace : List (List Char) → List Char
  | [] => []
  | [l] => l
  | l :: ls => l ++ ' ' :: joinSpace ls

/-- Python `'\n\n'.join`. -/
def joinParas : List (List Char) → List Char
  | [] => []
  | [l] => l
  | l :: ls => l ++ str "\n\n" ++ joinParas ls

/-- Paragraph grouping of `clean_chapter_text`: blank lines separate
paragraphs; non-blank lines are cleaned of `[N]` markers and space runs and
kept when nonempty. -/
def shortParaStep (acc : List (List Char) × List (List Char)) (line : List Char) :
    List (List Char) × List (List Char) :=
  if line = [] then
    if acc.2 ≠ [] then (acc.1 ++ [joinSpace acc.2], []) else acc
  else
    let cleaned := stripChars (collapseSpaces2 (subFootnoteMarker line))
    if cleaned ≠ [] then (acc.1, acc.2 ++ [cleaned]) else acc

/-- `clean_chapter_text` from parser_shortness.py. -/
def clean_chapter_text (first_line_text : Option (List Char))
    (lines : List (List Char)) : List Char :=
  let firstPart : List (List Char) :=
    match first_line_text with
    | some s => if s ≠ [] then [s] else []
    | none => []
  let all1 := firstPart ++ takeUntilFootnote lines
  let all2 := (dropTrailingEmpties all1).dropWhile (fun l => l = [])
  let acc := all2.foldl shortParaStep ([], [])
  let paragraphs := if acc.2 ≠ [] then acc.1 ++ [joinSpace acc.2] else acc.1
  joinParas paragraphs

/-- A section record of the shortness-of-life converter. -/
structure ShortSection where
  id : List Char
  book : Option Nat
  book_title : Option (List Char)
  chapter : Nat
  chapter_title : Option (List Char)
  letter_number : Option Nat
  text : List Char
  word_count : Nat
  source_reference : List Char
deriving DecidableEq

/-- `build_sections` from parser_shortness.py. -/
def build_sections_shortness (raw_chapters : List ShortRawChapter) :
    List ShortSection :=
  raw_chapters.filterMap (fun chapter =>
    let text := clean_chapter_text chapter.first_line_text chapter.lines
    if text = [] then none
    else some {
      id := str "shortness_ch" ++ padZeros 2 (natDecimal chapter.number)
      book := none
      book_title := none
      chapter := chapter.number
      chapter_title := none
      letter_number := none
      text := text
      word_count := countWords text
      source_reference := str "Chapter " ++ natDecimal chapter.number })

/-- The shortness pipeline up to the built sections: a missing chapter-1
anchor short-circuits and no sections are produced. -/
def shortnessRun (lines : List (List Char)) :
    Except (List Char) (List ShortSection) :=
  (find_content_start lines).map
    (fun start => build_sections_shortness (parse_chapters lines start))

/- ---------------------------------------------------------------------------
parser_discourses.py: noise classification, the Discourses state machine,
fragments, the Manual, and section building.
--------------------------------------------------------------------------- -/

/-- The `[IVX]` class of `RE_BOOK_HEADER` / `RE_NOTES_HEADER`. -/
def isRomanIVX (c : Char) : Bool := c = 'I' || c = 'V' || c = 'X'

/-- `RE_PAGE_MARKER = ^\[p\.\s*\d+\]$` (anchored at both ends). -/
def matchPageMarkerLine (s : List Char) : Bool :=
  isPrefixOfChars (str "[p.") s &&
  (let r1 := (s.drop 3).dropWhile pyWS
   let ds := r1.takeWhile isDigit
   let r2 := r1.dropWhile isDigit
   !ds.isEmpty && r2 == [']'])

/-- `RE_SACRED_TEXTS_HEADER = ^The Discourses of Epictetus, tr\. by P\.E\.? Matheson`
(a prefix match; the optional period gives two literal alternatives). -/
def matchSacredTexts (s : List Char) : Bool :=
  isPrefixOfChars (str "The Discourses of Epictetus, tr. by P.E. Matheson") s ||
  isPrefixOfChars (str "The Discourses of Epictetus, tr. by P.E Matheson") s

/-- `is_noise_line` from parser_discourses.py. -/
def is_noise_line (line : List Char) : Bool :=
  matchPageMarkerLine (stripChars line) || matchSacredTexts (stripChars line)

/-- `RE_NOTE_LINE = ^\^[a-z0-9]+-\d+` (a prefix match). -/
def matchNoteLine (s : List Char) : Bool :=
  isPrefixOfChars (str "^") s &&
  (let r1 := s.drop 1
   let w := r1.takeWhile (fun c => isLower c || isDigit c)
   let r2 := r1.dropWhile (fun c => isLower c || isDigit c)
   !w.isEmpty &&
   (match r2 with
    | '-' :: r3 => !(r3.takeWhile isDigit).isEmpty
    | _ => false))

/-- `RE_NOTES_HEADER = ^Book [IVX]+\.?\s*Notes\.?$`. -/
def matchNotesHeader (s : List Char) : Bool :=
  isPrefixOfChars (str "Book ") s &&
  (let r1 := s.drop 5
   let rom := r1.takeWhile isRomanIVX
   let r2 := r1.dropWhile isRomanIVX
   !rom.isEmpty &&
   (let r3 := match r2 with
      | '.' :: t => t
      | _ => r2
    let r4 := r3.dropWhile pyWS
    isPrefixOfChars (str "Notes") r4 &&
    (match r4.drop 5 with
     | [] => true
     | ['.'] => true
     | _ => false)))

/-- `RE_DISCOURSES_SEPARATOR = ^The Discourses\.$`. -/
def matchDiscSep (s : List Char) : Bool := s == str "The Discourses."

/-- Python `'IV' in s` (substring containment). -/
def containsIV : List Char → Bool
  | 'I' :: 'V' :: _ => true
  | _ :: rest => containsIV rest
  | [] => false

/-- `RE_BOOK_HEADER = ^BOOK ([IVX]+)$` of parser_discourses.py,
decoded through `roman_to_int`. -/
def matchBookHeader (s : List Char) : Option Nat :=
  if isPrefixOfChars (str "BOOK ") s then
    let rest := s.drop 5
    if !rest.isEmpty && rest.all isRomanIVX then some (roman_to_int rest) else none
  else none

/-- `RE_CHAPTER_HEADER = ^CHAPTER ([IVXLC]+)$` of parser_discourses.py. -/
def matchChapterHeader (s : List Char) : Option Nat :=
  if isPrefixOfChars (str "CHAPTER ") s then
    let rest := s.drop 8
    if !rest.isEmpty && rest.all isRomanLetterChar then some (roman_to_int rest)
    else none
  else none

/-- `^PREFACE$` and `^ARRIANUS TO LUCIUS GELLIUS GREETING$` as equalities. -/
def matchPreface (s : List Char) : Bool := s == str "PREFACE"

/-- The tail `\s*(\[\*[a-z0-9\-]+\])?\s*$` shared by `RE_FRAGMENTS_HEADER`,
`RE_MANUAL_HEADER`, `RE_FRAGMENT_NUMBER` and `RE_MANUAL_SECTION_NUMBER`. -/
def tailOptStarMarkWS (r : List Char) : Bool :=
  (let r0 := r.dropWhile pyWS
   match r0 with
   | '[' :: '*' :: r2 =>
     let w := r2.takeWhile isFnRefChar
     let r3 := r2.dropWhile isFnRefChar
     !w.isEmpty && r3.head? == some ']' && (r3.tail.dropWhile pyWS).isEmpty
   | _ => false) ||
  (r.dropWhile pyWS).isEmpty

/-- `RE_FRAGMENTS_HEADER = ^FRAGMENTS\s*(\[\*[a-z0-9\-]+\])?\s*$`. -/
def matchFragmentsHeader (s : List Char) : Bool :=
  isPrefixOfChars (str "FRAGMENTS") s &&
  tailOptStarMarkWS (s.drop (str "FRAGMENTS").length)

/-- `RE_MANUAL_HEADER = ^THE MANUAL \[ENCHIRIDION\] OF EPICTETUS\s*(\[\*...\])?\s*$`. -/
def matchManualHeader (s : List Char) : Bool :=
  isPrefixOfChars (str "THE MANUAL [ENCHIRIDION] OF EPICTETUS") s &&
  tailOptStarMarkWS (s.drop (str "THE MANUAL [ENCHIRIDION] OF EPICTETUS").length)

/-- `RE_FRAGMENT_NUMBER = ^(\d+[a-z]?)\s*(?:\[\*[a-z0-9\-]+\])?\s*$`;
the captured group is kept as a string ("10a"). -/
def matchFragmentNumber (s : List Char) : Option (List Char) :=
  let ds := s.takeWhile isDigit
  let r1 := s.dropWhile isDigit
  if ds.isEmpty then none
  else
    match r1 with
    | [] => some ds
    | c :: r2 =>
      if isLower c then
        if tailOptStarMarkWS r2 then some (ds ++ [c]) else none
      else if tailOptStarMarkWS r1 then some ds else none

/-- `RE_FRAGMENT_TITLE = ^(FROM |RUFUS:)` (a prefix match). -/
def matchFragTitle (s : List Char) : Bool :=
  isPrefixOfChars (str "FROM ") s || isPrefixOfChars (str "RUFUS:") s

/-- Python `str.isupper()` restricted to ASCII letters: at least one cased
character and no lowercase character (the corpus titles are ASCII). -/
def pyIsUpper (s : List Char) : Bool :=
  s.any (fun c => isUpper c || isLower c) && s.all (fun c => !isLower c)

/-- `RE_MANUAL_SECTION_NUMBER = ^(\d+)\s*(?:\[\*[a-z0-9\-]+\])?\s*$`,
decoded to the captured integer. -/
def parseManualNumber (s : List Char) : Option Nat :=
  let ds := s.takeWhile isDigit
  let r1 := s.dropWhile isDigit
  if ds.isEmpty then none
  else if tailOptStarMarkWS r1 then some (digitsToNat ds) else none

/-- `RE_INDEX_HEADER = ^SUBJECT INDEX TO THE DISCOURSES` (a prefix match). -/
def matchIndexHeader (s : List Char) : Bool :=
  isPrefixOfChars (str "SUBJECT INDEX TO THE DISCOURSES") s

/-- A chapter record produced by `parse_discourses`. -/
structure DChapter where
  book_num : Nat
  chapter_num : Nat
  chapter_title : Option (List Char)
  lines : List (List Char)
deriving DecidableEq

/-- The loop state of phase 3 of `parse_discourses`. -/
structure DState where
  currentBook : Option Nat
  currentChapterNum : Option Nat
  currentChapterTitle : Option (List Char)
  currentChapterLines : List (List Char)
  awaiting_title : Bool
  in_notes : Bool
  chapters : List DChapter
deriving DecidableEq

/-- Close the open chapter if both a chapter and a book are open. -/
def flushDisc (st : DState) : List DChapter :=
  match st.currentChapterNum, st.currentBook with
  | some cn, some bk =>
    st.chapters ++ [⟨bk, cn, st.currentChapterTitle, st.currentChapterLines⟩]
  | _, _ => st.chapters

/-- One iteration of the chapter loop of `parse_discourses`
(parser_discourses.py lines 292-355), in the source's branch order: noise,
notes-region entry, book header (which leaves the notes region), the
in-notes guard, chapter header, pending title, accumulation. -/
def discStep (st : DState) (line : List Char) : DState :=
  let stripped := stripChars line
  if is_noise_line line then st
  else if matchNotesHeader stripped || matchDiscSep stripped then
    { st with in_notes := true }
  else if matchNoteLine stripped then { st with in_notes := true }
  else
    match matchBookHeader stripped with
    | some b => ⟨some b, none, none, [], false, false, flushDisc st⟩
    | none =>
      if st.in_notes then st
      else
        match matchChapterHeader stripped with
        | some cn =>
          { st with currentChapterNum := some cn
                    currentChapterTitle := none
                    currentChapterLines := []
                    awaiting_title := true
                    chapters := flushDisc st }
        | none =>
          if st.awaiting_title then
            if stripped ≠ [] then
              { st with currentChapterTitle := some stripped
                        awaiting_title := false }
            else st
          else if st.currentChapterNum.isSome then
            { st with currentChapterLines := st.currentChapterLines ++ [stripped] }
          else st

/-- Phase 1 of `parse_discourses` (lines 233-254): one pass recording the
first `PREFACE` line, the first `BOOK I` line, and the content end — either a
`Book IV ... Notes` header (the `'IV' in stripped` test is plain substring
containment) or a `The Discourses.` separator whose next four lines contain
such a header (with the containment test on the raw line there). -/
def findDiscAnchors :
    List (List Char) → Nat → Option Nat → Option Nat →
      Option Nat × Option Nat × Option Nat
  | [], _, ps, b1 => (ps, b1, none)
  | l :: rest, i, ps, b1 =>
    let stripped := stripChars l
    let ps' := if matchPreface stripped ∧ ps = none then some i else ps
    let b1' := if stripped = str "BOOK I" ∧ b1 = none then some i else b1
    if matchNotesHeader stripped ∧ containsIV stripped then (ps', b1', some i)
    else if matchDiscSep stripped ∧
        ((rest.take 4).any (fun l2 =>
          matchNotesHeader (stripChars l2) && containsIV l2)) then
      (ps', b1', some i)
    else findDiscAnchors rest (i + 1) ps' b1'

/-- `parse_discourses` from parser_discourses.py: a missing `PREFACE` or
`BOOK I` anchor is fatal (`sys.exit(1)`, modelled as `Except.error`); a
missing end marker only falls back to the end of the file (a warning). -/
def parse_discoursesE (lines : List (List Char)) :
    Except (List Char) (List Char × List DChapter) :=
  match findDiscAnchors lines 0 none none with
  | (none, _, _) => .error (str "Could not find PREFACE.")
  | (some _, none, _) => .error (str "Could not find BOOK I.")
  | (some ps, some b1, ce) =>
      let contentEnd := ce.getD lines.length
      let prefLines := ((lines.take b1).drop ps).filterMap (fun l =>
        let stripped := stripChars l
        if matchPreface stripped then none
        else if stripped = str "ARRIANUS TO LUCIUS GELLIUS GREETING" then none
        else if is_noise_line l then none
        else some stripped)
      let preface_text := clean_text_discourses (joinNL prefLines)
      let final := ((lines.take contentEnd).drop b1).foldl discStep
        ⟨none, none, none, [], false, false, []⟩
      .ok (preface_text, flushDisc final)

/-- A fragment record of `parse_fragments`. -/
structure DFragment where
  number : List Char
  title : Option (List Char)
  lines : List (List Char)
deriving DecidableEq

/-- The loop state of `parse_fragments`. -/
structure FragState where
  currentNum : Option (List Char)
  currentTitle : Option (List Char)
  currentLines : List (List Char)
  awaiting_title : Bool
  fragments : List DFragment
deriving DecidableEq

/-- Close the open fragment, if any. -/
def flushFrag (st : FragState) : List DFragment :=
  match st.currentNum with
  | some n => st.fragments ++ [⟨n, st.currentTitle, st.currentLines⟩]
  | none => st.fragments

/-- One iteration of the `parse_fragments` loop (parser_discourses.py lines
410-445): noise is skipped; a fragment number (or the roman `I` for the first
fragment) opens a fragment; while a title is awaited a `FROM`/`RUFUS:` or
all-caps line becomes the title, any other non-blank line ends the wait and
falls through to accumulation. -/
def fragStep (st : FragState) (line : List Char) : FragState :=
  let stripped := stripChars line
  if is_noise_line line then st
  else
    let fm := matchFragmentNumber stripped
    let isFrag1 := st.currentNum = none ∧ stripped = str "I"
    if fm.isSome ∨ isFrag1 then
      ⟨some (fm.getD (str "1")), none, [], true, flushFrag st⟩
    else
      let st1 :=
        if st.awaiting_title ∧ stripped ≠ [] then
          if matchFragTitle stripped ∨ pyIsUpper stripped = true then
            some ({ st with currentTitle := some stripped, awaiting_title := false })
          else none
        else none
      match st1 with
      | some stDone => stDone
      | none =>
        let st2 := if st.awaiting_title ∧ stripped ≠ [] then
            { st with awaiting_title := false }
          else st
        if st2.currentNum.isSome then
          { st2 with currentLines := st2.currentLines ++ [stripped] }
        else st2

/-- The region scan of `parse_fragments` (lines 379-393): `frag_start` is set
(and overwritten) at each `FRAGMENTS` header; the region ends at the first
`^f-` note line or `THE MANUAL` header seen after a start. -/
def findFragRegion :
    List (List Char) → Nat → Option Nat → Option Nat × Option Nat
  | [], _, fs => (fs, none)
  | l :: rest, i, fs =>
    let stripped := stripChars l
    let fs' := if matchFragmentsHeader stripped then some (i + 1) else fs
    if fs' ≠ none ∧ matchNoteLine stripped ∧ isPrefixOfChars (str "^f-") stripped
    then (fs', some i)
    else if fs' ≠ none ∧ matchManualHeader stripped then (fs', some i)
    else findFragRegion rest (i + 1) fs'

/-- `parse_fragments` from parser_discourses.py. -/
def parse_fragments (lines : List (List Char)) : List DFragment :=
  let region := findFragRegion lines 0 none
  match region.1 with
  | none => []
  | some fs =>
    let fe := region.2.getD lines.length
    flushFrag (((lines.take fe).drop fs).foldl fragStep ⟨none, none, [], false, []⟩)

/-- The loop state of `parse_manual`. -/
structure ManualState where
  currentNum : Option Nat
  currentLines : List (List Char)
  sections : List (Nat × List (List Char))
deriving DecidableEq

/-- Append a (stripped) content line to the open section, if any. -/
def appendManual (st : ManualState) (stripped : List Char) : ManualState :=
  if st.currentNum.isSome then
    { st with currentLines := st.currentLines ++ [stripped] }
  else st

/-- One iteration of the `parse_manual` loop (parser_discourses.py lines
497-523): a bare-number line opens a new section only when its number is in
1..53 and strictly greater than the open section's number (or no section is
open); otherwise — like every other line — it is accumulated as content. -/
def manualStep (st : ManualState) (line : List Char) : ManualState :=
  let stripped := stripChars line
  if is_noise_line line then st
  else
    match parseManualNumber stripped with
    | some num =>
      if 1 ≤ num ∧ num ≤ 53 then
        if (match st.currentNum with
            | none => true
            | some m => decide (m < num)) then
          let sections' := match st.currentNum with
            | some n => st.sections ++ [(n, st.currentLines)]
            | none => st.sections
          ⟨some num, [], sections'⟩
        else appendManual st stripped
      else appendManual st stripped
    | none => appendManual st stripped

/-- The region scan of `parse_manual` (lines 469-481). -/
def findManualRegion :
    List (List Char) → Nat → Option Nat → Option Nat × Option Nat
  | [], _, ms => (ms, none)
  | l :: rest, i, ms =>
    let stripped := stripChars l
    let ms' := if matchManualHeader stripped then some (i + 1) else ms
    if ms' ≠ none ∧ matchNoteLine stripped ∧ isPrefixOfChars (str "^m-") stripped
    then (ms', some i)
    else if ms' ≠ none ∧ matchIndexHeader stripped then (ms', some i)
    else findManualRegion rest (i + 1) ms'

/-- `parse_manual` from parser_discourses.py. -/
def parse_manual (lines : List (List Char)) : List (Nat × List (List Char)) :=
  let region := findManualRegion lines 0 none
  match region.1 with
  | none => []
  | some ms =>
    let me := region.2.getD lines.length
    let st := ((lines.take me).drop ms).foldl manualStep ⟨none, [], []⟩
    match st.currentNum with
    | some n => st.sections ++ [(n, st.currentLines)]
    | none => st.sections

/-- A section record of the discourses converter. -/
structure DiscSection where
  id : List Char
  book : Option Nat
  book_title : Option (List Char)
  chapter : Option Nat
  chapter_title : Option (List Char)
  letter_number : Option Nat
  text : List Char
  word_count : Nat
  source_reference : List Char
deriving DecidableEq

/-- The `BOOK_TITLES` table of parser_discourses.py. -/
def BOOK_TITLES : List (Nat × List Char) :=
  [(1, str "Book I"), (2, str "Book II"), (3, str "Book III"), (4, str "Book IV")]

/-- `build_sections` from parser_discourses.py: the preface section (when the
preface text is nonempty), the discourse chapters, the fragments and the
manual sections, each cleaned and skipped when empty. -/
def build_sections_discourses (preface_text : List Char)
    (chapters : List DChapter) (fragments : List DFragment)
    (manual_sections : List (Nat × List (List Char))) : List DiscSection :=
  (if preface_text ≠ [] then
    [{ id := str "discourses_preface"
       book := none
       book_title := some (str "Preface")
       chapter := none
       chapter_title := some (str "Arrianus to Lucius Gellius Greeting")
       letter_number := none
       text := preface_text
       word_count := countWords preface_text
       source_reference := str "Preface" }]
   else []) ++
  chapters.filterMap (fun ch =>
    let text := clean_text_discourses (joinNL ch.lines)
    if text = [] then none
    else some {
      id := str "discourses_b" ++ natDecimal ch.book_num ++ str "_c" ++
        natDecimal ch.chapter_num
      book := some ch.book_num
      book_title := (BOOK_TITLES.find? (fun q => q.1 == ch.book_num)).map
        (fun q => q.2)
      chapter := some ch.chapter_num
      chapter_title := ch.chapter_title
      letter_number := none
      text := text
      word_count := countWords text
      source_reference := str "Book " ++ int_to_roman ch.book_num ++
        str ", Chapter " ++ int_to_roman ch.chapter_num }) ++
  fragments.filterMap (fun frag =>
    let text := clean_text_discourses (joinNL frag.lines)
    if text = [] then none
    else some {
      id := str "discourses_frag_" ++ frag.number
      book := none
      book_title := some (str "Fragments")
      chapter := none
      chapter_title := frag.title
      letter_number := none
      text := text
      word_count := countWords text
      source_reference := str "Fragment " ++ frag.number }) ++
  manual_sections.filterMap (fun sec =>
    let text := clean_text_discourses (joinNL sec.2)
    if text = [] then none
    else some {
      id := str "enchiridion_s" ++ natDecimal sec.1
      book := none
      book_title := some (str "The Manual (Enchiridion)")
      chapter := some sec.1
      chapter_title := none
      letter_number := none
      text := text
      word_count := countWords text
      source_reference := str "Enchiridion, Section " ++ natDecimal sec.1 })

/-- The discourses pipeline up to the built sections, as `main` composes it:
a fatal anchor failure in `parse_discourses` short-circuits and no sections
are produced. -/
def discoursesRun (lines : List (List Char)) :
    Except (List Char) (List DiscSection) :=
  (parse_discoursesE lines).map (fun pc =>
    build_sections_discourses pc.1 pc.2 (parse_fragments lines)
      (parse_manual lines))

/- ---------------------------------------------------------------------------
C3: word-count consistency of all four section builders.
--------------------------------------------------------------------------- -/

set_option maxHeartbeats 1000000 in
/-- C3: in every section record emitted by the four `build_sections`
functions, the `word_count` field equals the number of whitespace-delimited
tokens of that record's own `text` field (Python `len(text.split())`). -/
theorem C3_word_count_consistency :
    (∀ (raws : List RawLetter) (s : LetterSection),
      s ∈ build_sections_letters raws → s.word_count = countWords s.text) ∧
    (∀ (books : List (Nat × List (List Char))) (s : MedSection),
      s ∈ build_sections_meditations books → s.word_count = countWords s.text) ∧
    (∀ (pref : List Char) (chs : List DChapter) (frs : List DFragment)
       (ms : List (Nat × List (List Char))) (s : DiscSection),
      s ∈ build_sections_discourses pref chs frs ms →
        s.word_count = countWords s.text) ∧
    (∀ (chs : List ShortRawChapter) (s : ShortSection),
      s ∈ build_sections_shortness chs → s.word_count = countWords s.text) := by
  refine ⟨?_, ?_, ?_, ?_⟩
  · intro raws s hs
    rcases List.mem_filterMap.1 hs with ⟨a, _, hfa⟩
    by_cases ht : clean_letter_text a.lines a.number = []
    · rw [if_pos ht] at hfa
      cases hfa
    · rw [if_neg ht] at hfa
      cases hfa
      rfl
  · intro books s hs
    rcases List.mem_flatten.1 hs with ⟨L, hL, hsL⟩
    rcases List.mem_map.1 hL with ⟨bk, _, rfl⟩
    rcases List.mem_filterMap.1 hsL with ⟨p, _, hfa⟩
    by_cases ht : clean_text_meditations p.2 = []
    · rw [if_pos ht] at hfa
      cases hfa
    · rw [if_neg ht] at hfa
      cases hfa
      rfl
  · intro pref chs frs ms s hs
    unfold build_sections_discourses at hs
    rcases List.mem_append.1 hs with h1 | hmanual
    · rcases List.mem_append.1 h1 with h2 | hfrag
      · rcases List.mem_append.1 h2 with h3 | hch
        · by_cases hp : pref ≠ []
          · rw [if_pos hp] at h3
            rcases List.mem_singleton.1 h3 with rfl
            rfl
          · rw [if_neg hp] at h3
            cases h3
        · rcases List.mem_filterMap.1 hch with ⟨a, _, hfa⟩
          by_cases ht : clean_text_discourses (joinNL a.lines) = []
          · rw [if_pos ht] at hfa
            cases hfa
          · rw [if_neg ht] at hfa
            cases hfa
            rfl
      · rcases List.mem_filterMap.1 hfrag with ⟨a, _, hfa⟩
        by_cases ht : clean_text_discourses (joinNL a.lines) = []
        · rw [if_pos ht] at hfa
          cases hfa
        · rw [if_neg ht] at hfa
          cases hfa
          rfl
    · rcases List.mem_filterMap.1 hmanual with ⟨a, _, hfa⟩
      by_cases ht : clean_text_discourses (joinNL a.2) = []
      · rw [if_pos ht] at hfa
        cases hfa
      · rw [if_neg ht] at hfa
        cases hfa
        rfl
  · intro chs s hs
    rcases List.mem_filterMap.1 hs with ⟨a, _, hfa⟩
    by_cases ht : clean_chapter_text a.first_line_text a.lines = []
    · rw [if_pos ht] at hfa
      cases hfa
    · rw [if_neg ht] at hfa
      cases hfa
      rfl

set_option maxHeartbeats 2000000 in
/-- C3 witness: the consistency theorem applied to a concrete letters input
and a concrete meditations input. -/
theorem C3_word_count_consistency_witness :
    ((⟨str "letters_001", none, none, none, none, 1, none, str "hello world", 2,
        str "Letter I (1)"⟩ : LetterSection) ∈
      build_sections_letters [⟨1, none, [str "hello world"]⟩]) ∧
    (⟨str "letters_001", none, none, none, none, 1, none, str "hello world", 2,
        str "Letter I (1)"⟩ : LetterSection).word_count =
      countWords (⟨str "letters_001", none, none, none, none, 1, none,
        str "hello world", 2, str "Letter I (1)"⟩ : LetterSection).text ∧
    ((⟨str "meditations_b1_s1", 1, some (str "Book One"), none, none, 1, none,
        str "Begin the morning.", 3, str "Book 1, Section 1"⟩ : MedSection) ∈
      build_sections_meditations [(1, [str "Begin the morning."])]) ∧
    (⟨str "meditations_b1_s1", 1, some (str "Book One"), none, none, 1, none,
        str "Begin the morning.", 3, str "Book 1, Section 1"⟩ :
        MedSection).word_count =
      countWords (⟨str "meditations_b1_s1", 1, some (str "Book One"), none, none,
        1, none, str "Begin the morning.", 3, str "Book 1, Section 1"⟩ :
        MedSection).text :=
  ⟨by decide,
   C3_word_count_consistency.1 [⟨1, none, [str "hello world"]⟩] _ (by decide),
   by decide,
   C3_word_count_consistency.2.1 [(1, [str "Begin the morning."])] _ (by decide)⟩

/- ---------------------------------------------------------------------------
C6: the monotonicity/range sanity check of `parse_manual`.
--------------------------------------------------------------------------- -/

/-- C6: in the `parse_manual` loop, a bare-number line whose number is
outside 1..53 or not strictly greater than the number of the currently open
section does not open a new section: the open section, its number and the
already-flushed sections are unchanged and the stripped line is appended to
the open section's content lines, exactly as plain content. -/
theorem C6_manual_number_sanity (st : ManualState) (line : List Char)
    (m n : Nat)
    (hopen : st.currentNum = some m)
    (hnoise : is_noise_line line = false)
    (hnum : parseManualNumber (stripChars line) = some n)
    (hbad : ¬ (1 ≤ n ∧ n ≤ 53) ∨ ¬ m < n) :
    manualStep st line =
      { st with currentLines := st.currentLines ++ [stripChars line] } := by
  rcases hbad with hbad | hbad
  · simp [manualStep, appendManual, hnoise, hnum, hopen, hbad]
  · by_cases hr : 1 ≤ n ∧ n ≤ 53
    · simp [manualStep, appendManual, hnoise, hnum, hopen, hr, hbad]
    · simp [manualStep, appendManual, hnoise, hnum, hopen, hr]

/-- C6 witness: with section 5 open, the bare-number line `3` (3 is in range
but not greater than 5) is appended as content and opens nothing. -/
theorem C6_manual_number_sanity_witness :
    (⟨some 5, [], []⟩ : ManualState).currentNum = some 5 ∧
    is_noise_line (str "3") = false ∧
    parseManualNumber (stripChars (str "3")) = some 3 ∧
    (¬ (1 ≤ 3 ∧ 3 ≤ 53) ∨ ¬ 5 < 3) ∧
    manualStep ⟨some 5, [], []⟩ (str "3") =
      { (⟨some 5, [], []⟩ : ManualState) with
        currentLines := ([] : List (List Char)) ++ [stripChars (str "3")] } :=
  ⟨rfl, by decide, by decide, by decide,
   C6_manual_number_sanity ⟨some 5, [], []⟩ (str "3") 5 3 rfl (by decide)
     (by decide) (by decide)⟩

/- ---------------------------------------------------------------------------
C7: chapter headers inside the notes region of `parse_discourses`.
--------------------------------------------------------------------------- -/

/-- C7: while `in_notes` is set, a line matching the chapter-header pattern
leaves the `parse_discourses` loop state completely unchanged; a book-header
line clears `in_notes`, and the identical chapter line right after it opens
chapter `cn` of the new book (empty lines, awaiting its title). -/
theorem C7_notes_region_suppression (st : DState) (L B : List Char) (cn b : Nat)
    (hnotes : st.in_notes = true)
    (hLn : is_noise_line L = false)
    (hL1 : matchNotesHeader (stripChars L) = false)
    (hL2 : matchDiscSep (stripChars L) = false)
    (hL3 : matchNoteLine (stripChars L) = false)
    (hL4 : matchBookHeader (stripChars L) = none)
    (hL5 : matchChapterHeader (stripChars L) = some cn)
    (hBn : is_noise_line B = false)
    (hB1 : matchNotesHeader (stripChars B) = false)
    (hB2 : matchDiscSep (stripChars B) = false)
    (hB3 : matchNoteLine (stripChars B) = false)
    (hB4 : matchBookHeader (stripChars B) = some b) :
    discStep st L = st ∧
    (discStep st B).in_notes = false ∧
    discStep (discStep st B) L =
      ⟨some b, some cn, none, [], true, false, flushDisc (discStep st B)⟩ := by
  have hstB : discStep st B = ⟨some b, none, none, [], false, false, flushDisc st⟩ := by
    simp [discStep, hBn, hB1, hB2, hB3, hB4]
  refine ⟨?_, ?_, ?_⟩
  · simp [discStep, hLn, hL1, hL2, hL3, hL4, hnotes]
  · rw [hstB]
  · rw [hstB]
    simp [discStep, flushDisc, hLn, hL1, hL2, hL3, hL4, hL5]

/-- C7 witness: with the notes region open, `CHAPTER II` is inert; after the
book header `BOOK I` it opens chapter 2 of book 1. -/
theorem C7_notes_region_suppression_witness :
    (⟨none, none, none, [], false, true, []⟩ : DState).in_notes = true ∧
    is_noise_line (str "CHAPTER II") = false ∧
    matchNotesHeader (stripChars (str "CHAPTER II")) = false ∧
    matchDiscSep (stripChars (str "CHAPTER II")) = false ∧
    matchNoteLine (stripChars (str "CHAPTER II")) = false ∧
    matchBookHeader (stripChars (str "CHAPTER II")) = none ∧
    matchChapterHeader (stripChars (str "CHAPTER II")) = some 2 ∧
    is_noise_line (str "BOOK I") = false ∧
    matchNotesHeader (stripChars (str "BOOK I")) = false ∧
    matchDiscSep (stripChars (str "BOOK I")) = false ∧
    matchNoteLine (stripChars (str "BOOK I")) = false ∧
    matchBookHeader (stripChars (str "BOOK I")) = some 1 ∧
    (discStep ⟨none, none, none, [], false, true, []⟩ (str "CHAPTER II") =
        ⟨none, none, none, [], false, true, []⟩ ∧
      (discStep ⟨none, none, none, [], false, true, []⟩ (str "BOOK I")).in_notes
        = false ∧
      discStep (discStep ⟨none, none, none, [], false, true, []⟩ (str "BOOK I"))
          (str "CHAPTER II") =
        ⟨some 1, some 2, none, [], true, false,
          flushDisc (discStep ⟨none, none, none, [], false, true, []⟩
            (str "BOOK I"))⟩) :=
  ⟨rfl, by decide, by decide, by decide, by decide, by decide, by decide,
   by decide, by decide, by decide, by decide, by decide,
   C7_notes_region_suppression ⟨none, none, none, [], false, true, []⟩
     (str "CHAPTER II") (str "BOOK I") 2 1 rfl (by decide) (by decide)
     (by decide) (by decide) (by decide) (by decide) (by decide) (by decide)
     (by decide) (by decide) (by decide)⟩

/- ---------------------------------------------------------------------------
C9: fatal anchor failures.
--------------------------------------------------------------------------- -/

/-- If no line satisfies `p`, the forward scan finds nothing. -/
theorem findIdxFrom_none (p : List Char → Bool) (lines : List (List Char))
    (h : ∀ l ∈ lines, p l = false) : ∀ i, findIdxFrom p i lines = none := by
  induction lines with
  | nil => intro i; rfl
  | cons l rest ih =>
    intro i
    unfold findIdxFrom
    rw [if_neg (by rw [h l (List.mem_cons_self l rest)]; exact Bool.false_ne_true)]
    exact ih (fun x hx => h x (List.mem_cons_of_mem l hx)) (i + 1)

/-- If no stripped line matches `PREFACE`, the anchor scan records no
preface index (whatever the `BOOK I` accumulator holds). -/
theorem findDiscAnchors_fst_none (lines : List (List Char))
    (h : ∀ l ∈ lines, matchPreface (stripChars l) = false) :
    ∀ i b1, (findDiscAnchors lines i none b1).1 = none := by
  induction lines with
  | nil => intro i b1; rfl
  | cons l rest ih =>
    intro i b1
    have hm : matchPreface (stripChars l) = false := h l (List.mem_cons_self l rest)
    simp only [findDiscAnchors, hm, Bool.false_eq_true, false_and, if_false]
    split
    · rfl
    · split
      · rfl
      · exact ih (fun x hx => h x (List.mem_cons_of_mem l hx)) (i + 1) _

/-- If no stripped line equals `BOOK I`, the anchor scan records no `BOOK I`
index (whatever the preface accumulator holds). -/
theorem findDiscAnchors_snd_none (lines : List (List Char))
    (h : ∀ l ∈ lines, stripChars l ≠ str "BOOK I") :
    ∀ i ps, (findDiscAnchors lines i ps none).2.1 = none := by
  induction lines with
  | nil => intro i ps; rfl
  | cons l rest ih =>
    intro i ps
    have hb : (stripChars l = str "BOOK I") = False :=
      eq_false (h l (List.mem_cons_self l rest))
    simp only [findDiscAnchors, hb, false_and, if_false]
    split
    · rfl
    · split
      · rfl
      · exact ih (fun x hx => h x (List.mem_cons_of_mem l hx)) (i + 1) _

/-- C9: each missing required anchor is fatal, and the whole pipeline of the
affected converter produces an error — no sections at all — rather than
partial output: a meditations input with no `BOOK ONE` line (resp. no
`THE END` line), a shortness input with no chapter-1 header, and a
discourses input with no `PREFACE` line (resp. no `BOOK I` line). -/
theorem C9_fatal_anchor_failure :
    (∀ lines : List (List Char),
      lines.all (fun l => !(stripChars l == str "BOOK ONE")) = true →
      strip_header_footer lines =
          .error (str "Could not find BOOK ONE - unable to locate content start.") ∧
        meditationsRun lines =
          .error (str "Could not find BOOK ONE - unable to locate content start.")) ∧
    (∀ lines : List (List Char),
      lines.all (fun l => !(stripChars l == str "THE END")) = true →
      ∃ e, strip_header_footer lines = .error e ∧
        meditationsRun lines = .error e) ∧
    (∀ lines : List (List Char),
      lines.all (fun l =>
        match matchShortChapter (stripChars l) with
        | some p => !(p.1 == 1)
        | none => true) = true →
      find_content_start lines = .error (str "Could not find the start of chapter 1.") ∧
        shortnessRun lines = .error (str "Could not find the start of chapter 1.")) ∧
    (∀ lines : List (List Char),
      lines.all (fun l => !matchPreface (stripChars l)) = true →
      parse_discoursesE lines = .error (str "Could not find PREFACE.") ∧
        discoursesRun lines = .error (str "Could not find PREFACE.")) ∧
    (∀ lines : List (List Char),
      lines.all (fun l => !(stripChars l == str "BOOK I")) = true →
      ∃ e, parse_discoursesE lines = .error e ∧
        discoursesRun lines = .error e) := by
  refine ⟨?_, ?_, ?_, ?_, ?_⟩
  · intro lines h
    have h' : ∀ l ∈ lines,
        ((matchMedBookHeader (stripChars l)).isSome &&
          (stripChars l == str "BOOK ONE")) = false := by
      intro l hl
      have hx := List.all_eq_true.1 h l hl
      have hb : (stripChars l == str "BOOK ONE") = false := by simpa using hx
      rw [hb, Bool.and_false]
    have hf := findIdxFrom_none
      (fun l => (matchMedBookHeader (stripChars l)).isSome &&
        stripChars l == str "BOOK ONE") lines h' 0
    have hmain : strip_header_footer lines =
        .error (str "Could not find BOOK ONE - unable to locate content start.") := by
      unfold strip_header_footer findIdxFwd
      rw [hf]
    exact ⟨hmain, by unfold meditationsRun; rw [hmain]; rfl⟩
  · intro lines h
    have h' : ∀ l ∈ lines.reverse, (stripChars l == str "THE END") = false := by
      intro l hl
      have hx := List.all_eq_true.1 h l (List.mem_reverse.1 hl)
      simpa using hx
    have hf := findIdxFrom_none (fun l => stripChars l == str "THE END")
      lines.reverse h' 0
    have hbwd : findIdxBwd (fun l => stripChars l == str "THE END") lines = none := by
      unfold findIdxBwd
      rw [hf]
      rfl
    cases hS : findIdxFwd
        (fun l => (matchMedBookHeader (stripChars l)).isSome &&
          stripChars l == str "BOOK ONE") lines with
    | none =>
      have hmain : strip_header_footer lines =
          .error (str "Could not find BOOK ONE - unable to locate content start.") := by
        unfold strip_header_footer
        rw [hS]
      exact ⟨_, hmain, by unfold meditationsRun; rw [hmain]; rfl⟩
    | some s =>
      have hmain : strip_header_footer lines =
          .error (str "Could not find THE END - unable to locate content end.") := by
        unfold strip_header_footer
        rw [hS, hbwd]
      exact ⟨_, hmain, by unfold meditationsRun; rw [hmain]; rfl⟩
  · intro lines h
    have h' : ∀ l ∈ lines,
        (match matchShortChapter (stripChars l) with
         | some p => p.1 == 1
         | none => false) = false := by
      intro l hl
      have hx := List.all_eq_true.1 h l hl
      cases hm : matchShortChapter (stripChars l) with
      | none => rfl
      | some p =>
        rw [hm] at hx
        simpa using hx
    have hf := findIdxFrom_none
      (fun l => match matchShortChapter (stripChars l) with
        | some p => p.1 == 1
        | none => false) lines h' 0
    have hmain : find_content_start lines =
        .error (str "Could not find the start of chapter 1.") := by
      unfold find_content_start findIdxFwd
      rw [hf]
    exact ⟨hmain, by unfold shortnessRun; rw [hmain]; rfl⟩
  · intro lines h
    have h' : ∀ l ∈ lines, matchPreface (stripChars l) = false := by
      intro l hl
      have hx := List.all_eq_true.1 h l hl
      simpa using hx
    have hfst := findDiscAnchors_fst_none lines h' 0 none
    rcases hE : findDiscAnchors lines 0 none none with ⟨ps, b1, ce⟩
    rw [hE] at hfst
    obtain rfl : ps = none := hfst
    have hmain : parse_discoursesE lines = .error (str "Could not find PREFACE.") := by
      unfold parse_discoursesE
      rw [hE]
    exact ⟨hmain, by unfold discoursesRun; rw [hmain]; rfl⟩
  · intro lines h
    have h' : ∀ l ∈ lines, stripChars l ≠ str "BOOK I" := by
      intro l hl
      have hx := List.all_eq_true.1 h l hl
      simpa using hx
    have hsnd := findDiscAnchors_snd_none lines h' 0 none
    rcases hE : findDiscAnchors lines 0 none none with ⟨ps, b1, ce⟩
    rw [hE] at hsnd
    obtain rfl : b1 = none := hsnd
    cases ps with
    | none =>
      have hmain : parse_discoursesE lines = .error (str "Could not find PREFACE.") := by
        unfold parse_discoursesE
        rw [hE]
      exact ⟨_, hmain, by unfold discoursesRun; rw [hmain]; rfl⟩
    | some p =>
      have hmain : parse_discoursesE lines = .error (str "Could not find BOOK I.") := by
        unfold parse_discoursesE
        rw [hE]
      exact ⟨_, hmain, by unfold discoursesRun; rw [hmain]; rfl⟩

/-- C9 witness: the one-line input `hello` has none of the anchors, so all
four converters fail fatally on it with no sections produced. -/
theorem C9_fatal_anchor_failure_witness :
    ([str "hello"]).all (fun l => !(stripChars l == str "BOOK ONE")) = true ∧
    ([str "hello"]).all (fun l => !(stripChars l == str "THE END")) = true ∧
    ([str "hello"]).all (fun l =>
      match matchShortChapter (stripChars l) with
      | some p => !(p.1 == 1)
      | none => true) = true ∧
    ([str "hello"]).all (fun l => !matchPreface (stripChars l)) = true ∧
    ([str "hello"]).all (fun l => !(stripChars l == str "BOOK I")) = true ∧
    (strip_header_footer [str "hello"] =
        .error (str "Could not find BOOK ONE - unable to locate content start.") ∧
      meditationsRun [str "hello"] =
        .error (str "Could not find BOOK ONE - unable to locate content start.")) ∧
    (∃ e, strip_header_footer [str "hello"] = .error e ∧
      meditationsRun [str "hello"] = .error e) ∧
    (find_content_start [str "hello"] =
        .error (str "Could not find the start of chapter 1.") ∧
      shortnessRun [str "hello"] =
        .error (str "Could not find the start of chapter 1.")) ∧
    (parse_discoursesE [str "hello"] = .error (str "Could not find PREFACE.") ∧
      discoursesRun [str "hello"] = .error (str "Could not find PREFACE.")) ∧
    (∃ e, parse_discoursesE [str "hello"] = .error e ∧
      discoursesRun [str "hello"] = .error e) :=
  ⟨by decide, by decide, by decide, by decide, by decide,
   C9_fatal_anchor_failure.1 [str "hello"] (by decide),
   C9_fatal_anchor_failure.2.1 [str "hello"] (by decide),
   C9_fatal_anchor_failure.2.2.1 [str "hello"] (by decide),
   C9_fatal_anchor_failure.2.2.2.1 [str "hello"] (by decide),
   C9_fatal_anchor_failure.2.2.2.2 [str "hello"] (by decide)⟩
